import Mathlib

/-!
Oxia: shards director, client batcher manager and slash-aware key order.

A shallow embedding of

* `server/shards_director.go` (the per-node registry of leader and follower
  controllers),
* `oxia/internal/batch/manager.go` (the client-side map from shard id to
  batcher),
* the key comparator `CompareWithSlash` exercised by
  `server/kv/kv_pebble_test.go`,

followed by the properties established about them.

Conventions of the embedding.

* A Go `map[int64]V` is a finite list of entries; the order of the list is the
  order in which a `range` loop visits the entries (Go leaves it unspecified,
  so statements quantify over every order).
* Locks are not modelled: every method body runs atomically under its lock.
* Calls that leave the director (controller `Close`, controller `DeleteShard`,
  the two controller constructors) are answered by an environment `Env`,
  and every such call is recorded, in program order, in the `calls` field of
  the `Outcome` of the method.
* A Go `error` is `Option GoError`, with `none` for `nil`.
-/

namespace Oxia

/-! ## Errors -/

/-- Error values that are not aggregates: the sentinel `common.ErrorAlreadyClosed`,
the two gRPC status errors built by the director, and any other error that a
controller or a constructor may hand back. -/
inductive Err where
  | ErrorAlreadyClosed
  | CodeNodeIsNotLeader (shardId : Int)
  | CodeNodeIsNotFollower (shardId : Int)
  | other (tag : Nat)
  deriving DecidableEq, Repr

/-- A non-nil Go error: either one plain error or the flat aggregate that
`go.uber.org/multierr` builds out of two or more errors. -/
inductive GoError where
  | single (e : Err)
  | multiError (e1 e2 : Err) (rest : List Err)
  deriving DecidableEq, Repr

/-- A Go value of type `error`; `none` is `nil`. -/
abbrev Error := Option GoError

/-- The list of plain errors an error stands for (`multierr.Errors`). -/
def multierr.Errors : Error → List Err
  | none => []
  | some (.single e) => [e]
  | some (.multiError e1 e2 rest) => e1 :: e2 :: rest

/-- Rebuilds an error from a flat list of plain errors (`multierr.fromSlice`):
nothing gives `nil`, one error gives that error, more give an aggregate. -/
def multierr.fromSlice : List Err → Error
  | [] => none
  | [e] => some (.single e)
  | e1 :: e2 :: rest => some (.multiError e1 e2 rest)

/-- The function `multierr.Append(left, right)`: a `nil` side yields the other
side; otherwise the two sides are flattened into one aggregate. -/
def multierr.Append (left right : Error) : Error :=
  match left, right with
  | none, r => r
  | some l, none => some l
  | some (.single l), some (.single r) => some (.multiError l r [])
  | some (.multiError l1 l2 ls), some (.single r) => some (.multiError l1 l2 (ls ++ [r]))
  | some l, some r => multierr.fromSlice (multierr.Errors (some l) ++ multierr.Errors (some r))

/-! ## Go maps keyed by `int64` -/

/-- A Go `map[int64]V`, as the list of its entries in iteration order. -/
structure GoMap (V : Type) where
  entries : List (Int × V)
  deriving DecidableEq, Repr

namespace GoMap

variable {V : Type}

/-- The result of `make(map[int64]V)`. -/
def empty : GoMap V := ⟨[]⟩

/-- The lookup `v, ok := m[k]`; `none` is `ok = false`. -/
def get (m : GoMap V) (k : Int) : Option V :=
  match m.entries.find? (fun e => e.1 == k) with
  | some e => some e.2
  | none => none

/-- The statement `delete(m, k)`. -/
def delete (m : GoMap V) (k : Int) : GoMap V :=
  ⟨m.entries.filter (fun e => !(e.1 == k))⟩

/-- The statement `m[k] = v`. -/
def set (m : GoMap V) (k : Int) (v : V) : GoMap V :=
  ⟨(k, v) :: (m.delete k).entries⟩

/-- The keys of the map, in iteration order. -/
def keys (m : GoMap V) : List Int := m.entries.map Prod.fst

/-- Whether `k` is a key of the map. -/
def contains (m : GoMap V) (k : Int) : Bool := (m.get k).isSome

/-- A list of entries is a map when no key occurs twice. -/
def WellFormed (m : GoMap V) : Prop := m.keys.Nodup

instance (m : GoMap V) : Decidable m.WellFormed :=
  inferInstanceAs (Decidable m.keys.Nodup)

end GoMap

/-! ## The shards director (`server/shards_director.go`) -/

/-- The fields of `proto.DeleteShardRequest` that the director reads. -/
structure DeleteShardRequest where
  Namespace : String
  ShardId : Int
  deriving DecidableEq, Repr

/-- The struct `shardsDirector`, reduced to the fields that decide its
behaviour: the two controller maps and the `closed` flag. `L` is the type of
leader controllers and `F` the type of follower controllers. -/
structure shardsDirector (L F : Type) where
  leaders : GoMap L
  followers : GoMap F
  closed : Bool
  deriving DecidableEq, Repr

/-- A call that leaves the director. -/
inductive Call (L F : Type) where
  | LeaderClose (c : L)
  | FollowerClose (c : F)
  | NewLeaderController (ns : String) (shardId : Int)
  | NewFollowerController (ns : String) (shardId : Int)
  | LeaderDeleteShard (c : L) (req : DeleteShardRequest)
  | FollowerDeleteShard (c : F) (req : DeleteShardRequest)
  deriving DecidableEq, Repr

/-- The answers of the controllers and of the constructors during one method
call. A constructor answers with a controller or with a non-nil error; a
controller `DeleteShard` answers with the Go pair `(resp, err)`. -/
structure Env (L F Resp : Type) where
  LeaderClose : L → Error
  FollowerClose : F → Error
  NewLeaderController : String → Int → Except GoError L
  NewFollowerController : String → Int → Except GoError F
  LeaderDeleteShard : L → DeleteShardRequest → Option Resp × Error
  FollowerDeleteShard : F → DeleteShardRequest → Option Resp × Error

/-- What a method call produced: the state it leaves, the value it returns and
the outside calls it made, in program order. -/
structure Outcome (S R C : Type) where
  state : S
  ret : R
  calls : List C
  deriving DecidableEq, Repr

section Director

variable {L F Resp : Type}

/-- The constructor `NewShardsDirector`: both maps empty, not closed. -/
def NewShardsDirector : shardsDirector L F :=
  { leaders := GoMap.empty, followers := GoMap.empty, closed := false }

/-- The method `GetLeader`. -/
def shardsDirector.GetLeader (s : shardsDirector L F) (shardId : Int) :
    Outcome (shardsDirector L F) (Option L × Error) (Call L F) :=
  if s.closed then
    ⟨s, (none, some (.single .ErrorAlreadyClosed)), []⟩
  else
    match s.leaders.get shardId with
    | some leader => ⟨s, (some leader, none), []⟩
    | none => ⟨s, (none, some (.single (.CodeNodeIsNotLeader shardId))), []⟩

/-- The method `GetFollower`. -/
def shardsDirector.GetFollower (s : shardsDirector L F) (shardId : Int) :
    Outcome (shardsDirector L F) (Option F × Error) (Call L F) :=
  if s.closed then
    ⟨s, (none, some (.single .ErrorAlreadyClosed)), []⟩
  else
    match s.followers.get shardId with
    | some follower => ⟨s, (some follower, none), []⟩
    | none => ⟨s, (none, some (.single (.CodeNodeIsNotFollower shardId))), []⟩

/-- The tail of `GetOrCreateLeader` ("Create new leader controller"), entered
with the calls `pre` already made. -/
def shardsDirector.createLeader (env : Env L F Resp) (s : shardsDirector L F)
    (ns : String) (shardId : Int) (pre : List (Call L F)) :
    Outcome (shardsDirector L F) (Option L × Error) (Call L F) :=
  match env.NewLeaderController ns shardId with
  | .error err => ⟨s, (none, some err), pre ++ [.NewLeaderController ns shardId]⟩
  | .ok lc =>
    ⟨{ s with leaders := s.leaders.set shardId lc }, (some lc, none),
      pre ++ [.NewLeaderController ns shardId]⟩

/-- The method `GetOrCreateLeader`. -/
def shardsDirector.GetOrCreateLeader (env : Env L F Resp) (s : shardsDirector L F)
    (ns : String) (shardId : Int) :
    Outcome (shardsDirector L F) (Option L × Error) (Call L F) :=
  if s.closed then
    ⟨s, (none, some (.single .ErrorAlreadyClosed)), []⟩
  else
    match s.leaders.get shardId with
    | some leader => ⟨s, (some leader, none), []⟩
    | none =>
      match s.followers.get shardId with
      | some follower =>
        match env.FollowerClose follower with
        | some err => ⟨s, (none, some err), [.FollowerClose follower]⟩
        | none =>
          shardsDirector.createLeader env
            { s with followers := s.followers.delete shardId } ns shardId
            [.FollowerClose follower]
      | none => shardsDirector.createLeader env s ns shardId []

/-- The tail of `GetOrCreateFollower` ("Create new follower controller"),
entered with the calls `pre` already made. -/
def shardsDirector.createFollower (env : Env L F Resp) (s : shardsDirector L F)
    (ns : String) (shardId : Int) (pre : List (Call L F)) :
    Outcome (shardsDirector L F) (Option F × Error) (Call L F) :=
  match env.NewFollowerController ns shardId with
  | .error err => ⟨s, (none, some err), pre ++ [.NewFollowerController ns shardId]⟩
  | .ok fc =>
    ⟨{ s with followers := s.followers.set shardId fc }, (some fc, none),
      pre ++ [.NewFollowerController ns shardId]⟩

/-- The method `GetOrCreateFollower`. -/
def shardsDirector.GetOrCreateFollower (env : Env L F Resp) (s : shardsDirector L F)
    (ns : String) (shardId : Int) :
    Outcome (shardsDirector L F) (Option F × Error) (Call L F) :=
  if s.closed then
    ⟨s, (none, some (.single .ErrorAlreadyClosed)), []⟩
  else
    match s.followers.get shardId with
    | some follower => ⟨s, (some follower, none), []⟩
    | none =>
      match s.leaders.get shardId with
      | some leader =>
        match env.LeaderClose leader with
        | some err => ⟨s, (none, some err), [.LeaderClose leader]⟩
        | none =>
          shardsDirector.createFollower env
            { s with leaders := s.leaders.delete shardId } ns shardId
            [.LeaderClose leader]
      | none => shardsDirector.createFollower env s ns shardId []

/-- The method `DeleteShard`. It does not look at the `closed` flag. -/
def shardsDirector.DeleteShard (env : Env L F Resp) (s : shardsDirector L F)
    (req : DeleteShardRequest) :
    Outcome (shardsDirector L F) (Option Resp × Error) (Call L F) :=
  match s.leaders.get req.ShardId with
  | some leader =>
    match env.LeaderDeleteShard leader req with
    | (_, some err) => ⟨s, (none, some err), [.LeaderDeleteShard leader req]⟩
    | (resp, none) =>
      ⟨{ s with leaders := s.leaders.delete req.ShardId }, (resp, none),
        [.LeaderDeleteShard leader req]⟩
  | none =>
    match s.followers.get req.ShardId with
    | some follower =>
      match env.FollowerDeleteShard follower req with
      | (_, some err) => ⟨s, (none, some err), [.FollowerDeleteShard follower req]⟩
      | (resp, none) =>
        ⟨{ s with followers := s.followers.delete req.ShardId }, (resp, none),
          [.FollowerDeleteShard follower req]⟩
    | none =>
      match env.NewFollowerController req.Namespace req.ShardId with
      | .error err =>
        ⟨s, (none, some err), [.NewFollowerController req.Namespace req.ShardId]⟩
      | .ok fc =>
        ⟨s, env.FollowerDeleteShard fc req,
          [.NewFollowerController req.Namespace req.ShardId, .FollowerDeleteShard fc req]⟩

/-- One round of a closing loop `err = multierr.Append(err, c.Close())`: the
accumulator holds the error so far and the calls made so far. -/
def closeStep {C K : Type} (close : C → Error) (mk : C → K)
    (acc : Error × List K) (e : Int × C) : Error × List K :=
  (multierr.Append acc.1 (close e.2), acc.2 ++ [mk e.2])

/-- The method `Close` of the director: sets `closed`, then ranges over the
leaders and then over the followers. -/
def shardsDirector.Close (env : Env L F Resp) (s : shardsDirector L F) :
    Outcome (shardsDirector L F) Error (Call L F) :=
  let acc0 : Error × List (Call L F) := (none, [])
  let acc1 := s.leaders.entries.foldl (closeStep env.LeaderClose Call.LeaderClose) acc0
  let acc2 := s.followers.entries.foldl (closeStep env.FollowerClose Call.FollowerClose) acc1
  ⟨{ s with closed := true }, acc2.1, acc2.2⟩

/-- The calls a client of the director can make. -/
inductive Op where
  | GetLeader (shardId : Int)
  | GetFollower (shardId : Int)
  | GetOrCreateLeader (ns : String) (shardId : Int)
  | GetOrCreateFollower (ns : String) (shardId : Int)
  | DeleteShard (req : DeleteShardRequest)
  | Close
  deriving DecidableEq, Repr

/-- The state after one call, answered by `env`. -/
def shardsDirector.step (env : Env L F Resp) (s : shardsDirector L F) :
    Op → shardsDirector L F
  | .GetLeader shardId => (s.GetLeader shardId).state
  | .GetFollower shardId => (s.GetFollower shardId).state
  | .GetOrCreateLeader ns shardId => (s.GetOrCreateLeader env ns shardId).state
  | .GetOrCreateFollower ns shardId => (s.GetOrCreateFollower env ns shardId).state
  | .DeleteShard req => (s.DeleteShard env req).state
  | .Close => (s.Close env).state

/-- The state after a sequence of calls, each answered by its own environment
(so the same controller may succeed in one call and fail in another). -/
def shardsDirector.run (s : shardsDirector L F) :
    List (Env L F Resp × Op) → shardsDirector L F
  | [] => s
  | (env, op) :: rest => shardsDirector.run (s.step env op) rest

/-- The director invariant: no shard id is a key of both maps. -/
def shardsDirector.SingleRole (s : shardsDirector L F) : Prop :=
  ∀ k ∈ s.leaders.keys, k ∉ s.followers.keys

instance (s : shardsDirector L F) : Decidable s.SingleRole :=
  inferInstanceAs (Decidable (∀ k ∈ s.leaders.keys, k ∉ s.followers.keys))

end Director

/-! ## The batcher manager (`oxia/internal/batch/manager.go`) -/

/-- The struct `Manager`, reduced to its map. The field `batcherFactory` is a
Go closure that may answer differently each time it is invoked, so its
behaviour is handed to `Get` call by call. -/
structure Manager (B : Type) where
  batchers : GoMap B
  deriving DecidableEq, Repr

section BatchManager

variable {B : Type}

/-- The constructor `NewManager`: an empty map. -/
def NewManager : Manager B := ⟨GoMap.empty⟩

/-- The method `Get`. The argument `batcherFactory` is what the factory
returns if it is invoked during this call; the recorded calls are the shard
ids the factory was invoked with. The first lookup is the one under the read
lock, the second the re-check under the write lock. -/
def Manager.Get (batcherFactory : Int → B) (m : Manager B) (shardId : Int) :
    Outcome (Manager B) B Int :=
  match m.batchers.get shardId with
  | some batcher => ⟨m, batcher, []⟩
  | none =>
    match m.batchers.get shardId with
    | some batcher => ⟨m, batcher, []⟩
    | none =>
      let batcher := batcherFactory shardId
      ⟨⟨m.batchers.set shardId batcher⟩, batcher, [shardId]⟩

/-- A sequence of `Get` calls with no `Close` in between. Each call comes with
the behaviour of the factory at that moment. The result lists, per call, the
shard id asked for and the batcher returned; the recorded calls are all the
invocations of the factory. -/
def Manager.runGet (m : Manager B) :
    List ((Int → B) × Int) → Outcome (Manager B) (List (Int × B)) Int
  | [] => ⟨m, [], []⟩
  | (batcherFactory, shardId) :: rest =>
    let o := m.Get batcherFactory shardId
    let r := Manager.runGet o.state rest
    ⟨r.state, (shardId, o.ret) :: r.ret, o.calls ++ r.calls⟩

/-- One round of the loop of `Manager.Close`: delete the entry, close its
batcher and append the result. The accumulator holds the map, the error so far
and the batchers closed so far. -/
def Manager.closeStep (close : B → Error) (acc : GoMap B × Error × List B)
    (e : Int × B) : GoMap B × Error × List B :=
  (acc.1.delete e.1, multierr.Append acc.2.1 (close e.2), acc.2.2 ++ [e.2])

/-- The method `Close` of the manager; `close` is the answer of each batcher to
`Close`, and the recorded calls are the batchers that were closed. -/
def Manager.Close (close : B → Error) (m : Manager B) : Outcome (Manager B) Error B :=
  let acc := m.batchers.entries.foldl (Manager.closeStep close) (m.batchers, none, [])
  ⟨⟨acc.1⟩, acc.2.1, acc.2.2⟩

end BatchManager

/-! ## The slash-aware key order -/

/-- The byte `/`. -/
def slash : Nat := 47

/-- The function `bytes.Compare` of the Go standard library: lexicographic
comparison of two byte strings, with result `-1`, `0` or `+1`. Bytes are
natural numbers. -/
def bytesCompare : List Nat → List Nat → Int
  | [], [] => 0
  | [], _ :: _ => -1
  | _ :: _, [] => 1
  | x :: xs, y :: ys =>
    if x < y then -1 else if y < x then 1 else bytesCompare xs ys

/-- Modelled from the spec: the splitting of a key into its segments, which
the body of `CompareWithSlash` (absent from the sources at hand) performs; the
segments are the maximal runs of bytes between occurrences of `/`, so a key
with `n` slashes has `n + 1` segments. -/
def splitOnSlash : List Nat → List (List Nat)
  | [] => [[]]
  | c :: cs =>
    if c = slash then [] :: splitOnSlash cs
    else
      match splitOnSlash cs with
      | [] => [[c]]
      | seg :: rest => (c :: seg) :: rest

/-- Modelled from the spec: the segment-by-segment comparison inside
`CompareWithSlash` (absent from the sources at hand). Segments are compared
with `bytes.Compare` from the first one on (§3, "keys are compared
segment-by-segment split on `/`; within a segment bytes are compared
lexicographically"). Where one key is at its last segment and the other still
has a slash to come, the key without the slash is the smaller one: this is
what the assertions of `TestCompareWithSlash` fix (`"a" < "/"`,
`"/aaaa" < "/aa/a"`, `"/aaaa/a/a" > "/bbbbbbbbbb"`), and the test overrides
the sentence of §3 that `/` sorts below every other byte. -/
def compareSegments : List (List Nat) → List (List Nat) → Int
  | [], [] => 0
  | [], _ :: _ => -1
  | _ :: _, [] => 1
  | [x], [y] => bytesCompare x y
  | [_], _ :: _ :: _ => -1
  | _ :: _ :: _, [_] => 1
  | x :: x2 :: xs, y :: y2 :: ys =>
    if bytesCompare x y = 0 then compareSegments (x2 :: xs) (y2 :: ys)
    else bytesCompare x y

/-- Modelled from the spec: the comparator `CompareWithSlash(a, b []byte) int`,
whose body is absent from the sources at hand (only its tests in
`server/kv/kv_pebble_test.go` are present). -/
def CompareWithSlash (a b : List Nat) : Int :=
  compareSegments (splitOnSlash a) (splitOnSlash b)

/-- The bytes of an ASCII string, for writing test keys. -/
def key (s : String) : List Nat := s.toList.map Char.toNat

/-! ## The key set of the KV engine and its range scan -/

/-- Modelled from the spec: the effect of a committed `Put(k, _)` on the set of
keys held by the KV engine (`server/kv`, absent from the sources at hand). The
engine keeps its keys in the order of the slash-aware comparator (§4.5, "Keys
are ordered by the slash-aware comparator of §3"); a key that is already
present is not stored twice. Values play no part in a key scan and are left
out. -/
def putKey (k : List Nat) : List (List Nat) → List (List Nat)
  | [] => [k]
  | j :: rest =>
    if CompareWithSlash k j < 0 then k :: j :: rest
    else if CompareWithSlash k j = 0 then j :: rest
    else j :: putKey k rest

/-- Modelled from the spec: the keys held by the KV engine after the keys
`puts` were written and committed, in that order, starting from an empty
engine. -/
def committedKeys (puts : List (List Nat)) : List (List Nat) :=
  puts.foldl (fun store k => putKey k store) []

/-- Modelled from the spec: the keys that the iterator returned by
`KeyRangeScan(min, max)` yields, in the order it yields them (§4.5: a forward
iterator over `[min_inclusive, max_exclusive)` that observes the order of the
comparator). The body of `KeyRangeScan` is absent from the sources at hand;
only its tests are present. -/
def KeyRangeScan (store : List (List Nat)) (min max : List Nat) : List (List Nat) :=
  store.filter (fun k => decide (CompareWithSlash min k ≤ 0 ∧ CompareWithSlash k max < 0))

/-- The keys written by `TestPebbleRangeScanWithSlashOrder`, in the order of
the test. -/
def slashOrderTestKeys : List (List Nat) :=
  [key "/a/a/a/zzzzzz", key "/a/b/a/a/a/a", key "/a/b/a/c", key "/a/b/a/a",
   key "/a/b/a/a/a", key "/a/b/a/b"]

/-! ## Which controller a call is made on -/

/-- Whether a call is a `Close` or a `DeleteShard` on the leader controller
`l`. -/
def Call.isOnLeader {L F : Type} (l : L) : Call L F → Prop
  | .LeaderClose c => c = l
  | .LeaderDeleteShard c _ => c = l
  | _ => False

/-- Whether a call is a `Close` or a `DeleteShard` on the follower controller
`f`. -/
def Call.isOnFollower {L F : Type} (f : F) : Call L F → Prop
  | .FollowerClose c => c = f
  | .FollowerDeleteShard c _ => c = f
  | _ => False

/-! ## Client calls and their wire form (`oxia/internal/model/model.go`) -/

/-- The struct `PutCall`. A Go pointer field is an `Option`, the byte slice
`Value` a list of bytes; `Cb` is the type of the completion callback, which
`ToProto` does not read. -/
structure PutCall (Cb : Type) where
  Key : String
  Value : List Nat
  ExpectedVersionId : Option Int
  SessionId : Option Int
  ClientIdentity : Option String
  Callback : Cb

/-- The fields of `proto.PutRequest` that `PutCall.ToProto` sets. -/
structure PutRequest where
  Key : String
  Value : List Nat
  ExpectedVersionId : Option Int
  SessionId : Option Int
  ClientIdentity : Option String
  deriving DecidableEq, Repr

/-- The method `PutCall.ToProto`. -/
def PutCall.ToProto {Cb : Type} (r : PutCall Cb) : PutRequest :=
  { Key := r.Key
    Value := r.Value
    ExpectedVersionId := r.ExpectedVersionId
    SessionId := r.SessionId
    ClientIdentity := r.ClientIdentity }

/-- The loop `for i, call := range calls { protos[i] = toProto(call) }` of
`Convert`, entered at index `i` with the calls still to visit. -/
def Convert.loop {CALL PROTO : Type} (toProto : CALL → PROTO) :
    Nat → List CALL → List PROTO → List PROTO
  | _, [], protos => protos
  | i, call :: rest, protos => Convert.loop toProto (i + 1) rest (protos.set i (toProto call))

/-- The generic function `Convert`. The slice built by
`make([]PROTO, len(calls))` holds `len(calls)` copies of the zero value of
`PROTO`, which is the argument `zero`; the loop then overwrites it index by
index. -/
def Convert {CALL PROTO : Type} (zero : PROTO) (calls : List CALL) (toProto : CALL → PROTO) :
    List PROTO :=
  Convert.loop toProto 0 calls (List.replicate calls.length zero)

/-- The zero value of `proto.PutRequest`. -/
def PutRequest.zero : PutRequest :=
  { Key := "", Value := [], ExpectedVersionId := none, SessionId := none,
    ClientIdentity := none }

/-- Two put calls, used as an example: a plain put of `a`, and a conditional
put of `b` made under session 5 by the client `c1`. -/
def examplePutCalls : List (PutCall Unit) :=
  [{ Key := "a", Value := [48], ExpectedVersionId := none, SessionId := none,
     ClientIdentity := none, Callback := () },
   { Key := "b", Value := [49], ExpectedVersionId := some 3, SessionId := some 5,
     ClientIdentity := some "c1", Callback := () }]

/-! ## Concrete environments and states used in the examples -/

/-- An environment in which every outside call succeeds: the leader built for
shard `n` is the controller `100 + n`, the follower built for it is `200 + n`. -/
def envOk : Env Nat Nat Unit where
  LeaderClose := fun _ => none
  FollowerClose := fun _ => none
  NewLeaderController := fun _ shardId => .ok (100 + shardId.toNat)
  NewFollowerController := fun _ shardId => .ok (200 + shardId.toNat)
  LeaderDeleteShard := fun _ _ => (some (), none)
  FollowerDeleteShard := fun _ _ => (some (), none)

/-- An environment in which every outside call fails with the error
`Err.other tag`. -/
def envFail (tag : Nat) : Env Nat Nat Unit where
  LeaderClose := fun _ => some (.single (.other tag))
  FollowerClose := fun _ => some (.single (.other tag))
  NewLeaderController := fun _ _ => .error (.single (.other tag))
  NewFollowerController := fun _ _ => .error (.single (.other tag))
  LeaderDeleteShard := fun _ _ => (none, some (.single (.other tag)))
  FollowerDeleteShard := fun _ _ => (none, some (.single (.other tag)))

/-- An environment in which controllers close and delete without error but
both constructors fail with `Err.other tag`. -/
def envNoCtor (tag : Nat) : Env Nat Nat Unit where
  LeaderClose := fun _ => none
  FollowerClose := fun _ => none
  NewLeaderController := fun _ _ => .error (.single (.other tag))
  NewFollowerController := fun _ _ => .error (.single (.other tag))
  LeaderDeleteShard := fun _ _ => (some (), none)
  FollowerDeleteShard := fun _ _ => (some (), none)

/-- The director after `GetOrCreateLeader("ns", 1)` succeeded on a new
director: shard 1 is led by controller 101. -/
def directorWithLeader : shardsDirector Nat Nat :=
  (NewShardsDirector : shardsDirector Nat Nat).run [(envOk, Op.GetOrCreateLeader "ns" 1)]

/-- The director after `GetOrCreateFollower("ns", 1)` succeeded on a new
director: shard 1 is followed by controller 201. -/
def directorWithFollower : shardsDirector Nat Nat :=
  (NewShardsDirector : shardsDirector Nat Nat).run [(envOk, Op.GetOrCreateFollower "ns" 1)]

/-- The director after `GetOrCreateLeader("ns", 1)`,
`GetOrCreateFollower("ns", 2)` and then `Close`, all successful. -/
def directorClosed : shardsDirector Nat Nat :=
  (NewShardsDirector : shardsDirector Nat Nat).run
    [(envOk, Op.GetOrCreateLeader "ns" 1), (envOk, Op.GetOrCreateFollower "ns" 2),
     (envOk, Op.Close)]

/-- A batcher factory that builds the batcher `1000 + n` for shard `n`. -/
def factoryA : Int → Nat := fun shardId => 1000 + shardId.toNat

/-- A batcher factory that builds the batcher `2000 + n` for shard `n`. -/
def factoryB : Int → Nat := fun shardId => 2000 + shardId.toNat

/-- The manager after `Get(1)` on a new manager whose factory is `factoryA`. -/
def managerWithOne : Manager Nat := ((NewManager : Manager Nat).Get factoryA 1).state

/-- An environment in which the constructors succeed and every controller
`DeleteShard` fails, returning no response and the error `Err.other tag`. -/
def envDeleteFails (tag : Nat) : Env Nat Nat Unit where
  LeaderClose := fun _ => none
  FollowerClose := fun _ => none
  NewLeaderController := fun _ shardId => .ok (100 + shardId.toNat)
  NewFollowerController := fun _ shardId => .ok (200 + shardId.toNat)
  LeaderDeleteShard := fun _ _ => (none, some (.single (.other tag)))
  FollowerDeleteShard := fun _ _ => (none, some (.single (.other tag)))

/-- The director after `GetOrCreateLeader("ns", 1)` and
`GetOrCreateFollower("ns", 2)`, both successful: shard 1 is led by controller
101 and shard 2 is followed by controller 202. -/
def directorTwoShards : shardsDirector Nat Nat :=
  (NewShardsDirector : shardsDirector Nat Nat).run
    [(envOk, Op.GetOrCreateLeader "ns" 1), (envOk, Op.GetOrCreateFollower "ns" 2)]

/-! ## Facts about Go maps -/

namespace GoMap

variable {V : Type}

theorem mem_keys_iff_get (m : GoMap V) (k : Int) : k ∈ m.keys ↔ ∃ v, m.get k = some v := by
  obtain ⟨es⟩ := m
  induction es with
  | nil => simp [keys, get]
  | cons e es ih =>
    simp only [keys, get, List.map_cons, List.mem_cons, List.find?_cons] at ih ⊢
    by_cases h : e.1 = k
    · simp [h]
    · have h2 : (e.1 == k) = false := by simpa using h
      have h3 : ¬ k = e.1 := fun h4 => h h4.symm
      simp only [h2, h3, false_or]
      exact ih

theorem not_mem_keys_iff_get (m : GoMap V) (k : Int) : k ∉ m.keys ↔ m.get k = none := by
  rw [mem_keys_iff_get]
  cases m.get k <;> simp

theorem keys_delete (m : GoMap V) (k : Int) :
    (m.delete k).keys = m.keys.filter (fun j => !(j == k)) := by
  obtain ⟨es⟩ := m
  induction es with
  | nil => simp [keys, delete]
  | cons e es ih =>
    simp only [keys, delete, List.filter_cons, List.map_cons] at ih ⊢
    by_cases h : e.1 = k
    · simp [h, ih]
    · have h2 : (e.1 == k) = false := by simpa using h
      simp [h2, ih]

theorem mem_keys_delete (m : GoMap V) (k j : Int) :
    j ∈ (m.delete k).keys ↔ j ≠ k ∧ j ∈ m.keys := by
  rw [keys_delete]
  simp [List.mem_filter, and_comm]

theorem keys_set (m : GoMap V) (k : Int) (v : V) :
    (m.set k v).keys = k :: (m.delete k).keys := by
  simp [set, keys]

theorem mem_keys_set (m : GoMap V) (k j : Int) (v : V) :
    j ∈ (m.set k v).keys ↔ j = k ∨ j ∈ m.keys := by
  rw [keys_set, List.mem_cons, mem_keys_delete]
  by_cases h : j = k <;> simp [h]

theorem get_delete_self (m : GoMap V) (k : Int) : (m.delete k).get k = none := by
  rw [← not_mem_keys_iff_get, mem_keys_delete]
  simp

theorem get_delete_ne (m : GoMap V) {k j : Int} (h : j ≠ k) :
    (m.delete k).get j = m.get j := by
  obtain ⟨es⟩ := m
  induction es with
  | nil => simp [get, delete]
  | cons e es ih =>
    simp only [get, delete, List.filter_cons] at ih ⊢
    by_cases h1 : e.1 = k
    · have h2 : (e.1 == j) = false := by
        simp only [beq_eq_false_iff_ne, ne_eq, h1]
        exact fun h3 => h h3.symm
      simp only [h1, beq_self_eq_true, Bool.not_true, Bool.false_eq_true, if_false,
        List.find?_cons]
      rw [← h1, h2]
      simpa [h1] using ih
    · have h2 : (e.1 == k) = false := by simpa using h1
      simp only [h2, Bool.not_false, if_true, List.find?_cons]
      cases h3 : (e.1 == j)
      · simpa using ih
      · rfl

theorem get_set_self (m : GoMap V) (k : Int) (v : V) : (m.set k v).get k = some v := by
  simp [get, set]

theorem get_set_ne (m : GoMap V) {k j : Int} (v : V) (h : j ≠ k) :
    (m.set k v).get j = m.get j := by
  have h2 : (k == j) = false := by
    simp only [beq_eq_false_iff_ne, ne_eq]
    exact fun h3 => h h3.symm
  have h4 := get_delete_ne m h
  simp only [get, set, delete, List.find?_cons, h2] at h4 ⊢
  exact h4

theorem wellFormed_empty : (GoMap.empty : GoMap V).WellFormed := by
  simp [WellFormed, keys, empty]

theorem wellFormed_delete {m : GoMap V} (h : m.WellFormed) (k : Int) :
    (m.delete k).WellFormed := by
  unfold WellFormed at h ⊢
  rw [keys_delete]
  exact h.filter _

theorem wellFormed_set {m : GoMap V} (h : m.WellFormed) (k : Int) (v : V) :
    (m.set k v).WellFormed := by
  have h1 := wellFormed_delete h k
  unfold WellFormed at h1 ⊢
  rw [keys_set, List.nodup_cons]
  refine ⟨?_, h1⟩
  rw [mem_keys_delete]
  simp

end GoMap

/-! ## The single-role invariant of the director -/

section DirectorInvariant

variable {L F Resp : Type}

theorem singleRole_createLeader (env : Env L F Resp) (s : shardsDirector L F) (ns : String)
    (shardId : Int) (pre : List (Call L F)) (h : s.SingleRole)
    (hf : shardId ∉ s.followers.keys) :
    (shardsDirector.createLeader env s ns shardId pre).state.SingleRole := by
  unfold shardsDirector.createLeader
  cases env.NewLeaderController ns shardId with
  | error err => exact h
  | ok lc =>
    intro k hk
    simp only [GoMap.mem_keys_set] at hk
    rcases hk with hk | hk
    · subst hk; exact hf
    · exact h k hk

theorem singleRole_createFollower (env : Env L F Resp) (s : shardsDirector L F) (ns : String)
    (shardId : Int) (pre : List (Call L F)) (h : s.SingleRole)
    (hl : shardId ∉ s.leaders.keys) :
    (shardsDirector.createFollower env s ns shardId pre).state.SingleRole := by
  unfold shardsDirector.createFollower
  cases env.NewFollowerController ns shardId with
  | error err => exact h
  | ok fc =>
    intro k hk hk2
    simp only [GoMap.mem_keys_set] at hk2
    rcases hk2 with hk2 | hk2
    · subst hk2; exact hl hk
    · exact h k hk hk2

theorem singleRole_deleteFollower (s : shardsDirector L F) (shardId : Int) (h : s.SingleRole) :
    shardsDirector.SingleRole { s with followers := s.followers.delete shardId } := by
  intro k hk hk2
  simp only [GoMap.mem_keys_delete] at hk2
  exact h k hk hk2.2

theorem singleRole_deleteLeader (s : shardsDirector L F) (shardId : Int) (h : s.SingleRole) :
    shardsDirector.SingleRole { s with leaders := s.leaders.delete shardId } := by
  intro k hk hk2
  simp only [GoMap.mem_keys_delete] at hk
  exact h k hk.2 hk2

theorem singleRole_GetOrCreateLeader (env : Env L F Resp) (s : shardsDirector L F)
    (ns : String) (shardId : Int) (h : s.SingleRole) :
    (s.GetOrCreateLeader env ns shardId).state.SingleRole := by
  unfold shardsDirector.GetOrCreateLeader
  split
  · exact h
  · split
    · exact h
    · split
      · split
        · exact h
        · apply singleRole_createLeader
          · exact singleRole_deleteFollower s shardId h
          · simp [GoMap.mem_keys_delete]
      · rename_i hnone
        apply singleRole_createLeader _ _ _ _ _ h
        exact (GoMap.not_mem_keys_iff_get _ _).2 hnone

theorem singleRole_GetOrCreateFollower (env : Env L F Resp) (s : shardsDirector L F)
    (ns : String) (shardId : Int) (h : s.SingleRole) :
    (s.GetOrCreateFollower env ns shardId).state.SingleRole := by
  unfold shardsDirector.GetOrCreateFollower
  split
  · exact h
  · split
    · exact h
    · split
      · split
        · exact h
        · apply singleRole_createFollower
          · exact singleRole_deleteLeader s shardId h
          · simp [GoMap.mem_keys_delete]
      · rename_i hnone
        apply singleRole_createFollower _ _ _ _ _ h
        exact (GoMap.not_mem_keys_iff_get _ _).2 hnone

theorem singleRole_DeleteShard (env : Env L F Resp) (s : shardsDirector L F)
    (req : DeleteShardRequest) (h : s.SingleRole) :
    (s.DeleteShard env req).state.SingleRole := by
  unfold shardsDirector.DeleteShard
  split
  · split
    · exact h
    · exact singleRole_deleteLeader s _ h
  · split
    · split
      · exact h
      · exact singleRole_deleteFollower s _ h
    · split <;> exact h

theorem singleRole_step (env : Env L F Resp) (s : shardsDirector L F) (op : Op)
    (h : s.SingleRole) : (s.step env op).SingleRole := by
  cases op with
  | GetLeader shardId =>
    simp only [shardsDirector.step, shardsDirector.GetLeader]
    split
    · exact h
    · split <;> exact h
  | GetFollower shardId =>
    simp only [shardsDirector.step, shardsDirector.GetFollower]
    split
    · exact h
    · split <;> exact h
  | GetOrCreateLeader ns shardId => exact singleRole_GetOrCreateLeader env s ns shardId h
  | GetOrCreateFollower ns shardId => exact singleRole_GetOrCreateFollower env s ns shardId h
  | DeleteShard req => exact singleRole_DeleteShard env s req h
  | Close => exact h

theorem singleRole_run (s : shardsDirector L F) (steps : List (Env L F Resp × Op))
    (h : s.SingleRole) : (s.run steps).SingleRole := by
  induction steps generalizing s with
  | nil => exact h
  | cons st rest ih =>
    obtain ⟨env, op⟩ := st
    exact ih _ (singleRole_step env s op h)

/-- C1. Starting from the state built by `NewShardsDirector`, after any finite
sequence of `GetLeader`, `GetFollower`, `GetOrCreateLeader`,
`GetOrCreateFollower`, `DeleteShard` and `Close` calls, each answered by an
arbitrary environment (controller `Close`, controller `DeleteShard` and the
constructors succeed or fail at will), no shard id is a key of both the
leaders map and the followers map. -/
theorem C1_single_role_invariant (steps : List (Env L F Resp × Op)) (shardId : Int) :
    ¬ (shardId ∈ ((NewShardsDirector : shardsDirector L F).run steps).leaders.keys ∧
       shardId ∈ ((NewShardsDirector : shardsDirector L F).run steps).followers.keys) := by
  have h0 : (NewShardsDirector : shardsDirector L F).SingleRole := by
    intro k hk
    simp [NewShardsDirector, GoMap.empty, GoMap.keys] at hk
  intro h
  exact singleRole_run _ steps h0 shardId h.1 h.2

end DirectorInvariant

/-! ## Lookups -/

section DirectorLookups

variable {L F Resp : Type}

/-- C2, refuted as stated. On the director obtained by creating a leader for
shard 1 and then closing the director, the leaders map still contains shard 1
(controller 101), yet `GetLeader(1)` returns no controller and fails with
`ErrorAlreadyClosed`; likewise `GetFollower(2)` for the follower 202. -/
theorem C2_registered_but_closed :
    directorClosed.leaders.get 1 = some 101 ∧
    (directorClosed.GetLeader 1).ret = (none, some (.single .ErrorAlreadyClosed)) ∧
    directorClosed.followers.get 2 = some 202 ∧
    (directorClosed.GetFollower 2).ret = (none, some (.single .ErrorAlreadyClosed)) := by
  decide

/-- C2, amended. `GetLeader` fails with `ErrorAlreadyClosed` whenever the
director has been closed, whether or not the shard id is in the leaders map.
On a director that has not been closed it returns the registered leader
controller with no error when the leaders map contains the shard id, and fails
with the not-leader status when it does not. `GetFollower` does the same over
the followers map with the not-follower status. -/
theorem C2_lookup_results (s : shardsDirector L F) (shardId : Int) :
    (s.closed = true →
      (s.GetLeader shardId).ret = (none, some (.single .ErrorAlreadyClosed)) ∧
      (s.GetFollower shardId).ret = (none, some (.single .ErrorAlreadyClosed))) ∧
    (s.closed = false →
      (∀ leader, s.leaders.get shardId = some leader →
        (s.GetLeader shardId).ret = (some leader, none)) ∧
      (s.leaders.get shardId = none →
        (s.GetLeader shardId).ret = (none, some (.single (.CodeNodeIsNotLeader shardId)))) ∧
      (∀ follower, s.followers.get shardId = some follower →
        (s.GetFollower shardId).ret = (some follower, none)) ∧
      (s.followers.get shardId = none →
        (s.GetFollower shardId).ret =
          (none, some (.single (.CodeNodeIsNotFollower shardId))))) := by
  refine ⟨fun hc => ?_, fun hc => ⟨fun leader hl => ?_, fun hl => ?_, fun follower hf => ?_,
    fun hf => ?_⟩⟩
  · simp [shardsDirector.GetLeader, shardsDirector.GetFollower, hc]
  · simp [shardsDirector.GetLeader, hc, hl]
  · simp [shardsDirector.GetLeader, hc, hl]
  · simp [shardsDirector.GetFollower, hc, hf]
  · simp [shardsDirector.GetFollower, hc, hf]

/-- C2, amended, at concrete inputs: the closed director refuses shard 1 and
the unknown shard 7 alike; the open director with leader 101 for shard 1
returns it, and reports not-leader for shard 7 and not-follower for shard 1. -/
theorem C2_lookup_results_witness :
    (directorClosed.GetLeader 7).ret = (none, some (.single .ErrorAlreadyClosed)) ∧
    (directorWithLeader.GetLeader 1).ret = (some 101, none) ∧
    (directorWithLeader.GetLeader 7).ret = (none, some (.single (.CodeNodeIsNotLeader 7))) ∧
    (directorWithFollower.GetFollower 1).ret = (some 201, none) ∧
    (directorWithLeader.GetFollower 1).ret =
      (none, some (.single (.CodeNodeIsNotFollower 1))) :=
  ⟨((C2_lookup_results directorClosed 7).1 (by decide)).1,
   ((C2_lookup_results directorWithLeader 1).2 (by decide)).1 101 (by decide),
   ((C2_lookup_results directorWithLeader 7).2 (by decide)).2.1 (by decide),
   ((C2_lookup_results directorWithFollower 1).2 (by decide)).2.2.1 201 (by decide),
   ((C2_lookup_results directorWithLeader 1).2 (by decide)).2.2.2 (by decide)⟩

end DirectorLookups

/-! ## Role transitions -/

section DirectorRoles

variable {L F Resp : Type}

theorem get_none_of_singleRole_follower {s : shardsDirector L F} {shardId : Int} {f : F}
    (hinv : s.SingleRole) (hf : s.followers.get shardId = some f) :
    s.leaders.get shardId = none := by
  rw [← GoMap.not_mem_keys_iff_get]
  intro hk
  exact hinv shardId hk ((GoMap.mem_keys_iff_get _ _).2 ⟨f, hf⟩)

theorem get_none_of_singleRole_leader {s : shardsDirector L F} {shardId : Int} {l : L}
    (hinv : s.SingleRole) (hl : s.leaders.get shardId = some l) :
    s.followers.get shardId = none := by
  rw [← GoMap.not_mem_keys_iff_get]
  intro hk
  exact hinv shardId ((GoMap.mem_keys_iff_get _ _).2 ⟨l, hl⟩) hk

/-- C3. On an open director (one that satisfies the single-role invariant, as
every director does), if shard `shardId` is registered as a follower whose
`Close` returns the error `e`, then `GetOrCreateLeader(ns, shardId)` returns
`(nil, e)`, its only outside call is that `Close` (no constructor runs), and
the state, both maps included, is unchanged. Symmetrically for
`GetOrCreateFollower` when the shard is registered as a leader whose `Close`
fails. -/
theorem C3_role_flip_close_error (env : Env L F Resp) (s : shardsDirector L F)
    (ns : String) (shardId : Int) (e : GoError)
    (hopen : s.closed = false) (hinv : s.SingleRole) :
    (∀ follower, s.followers.get shardId = some follower →
      env.FollowerClose follower = some e →
      s.GetOrCreateLeader env ns shardId = ⟨s, (none, some e), [.FollowerClose follower]⟩) ∧
    (∀ leader, s.leaders.get shardId = some leader →
      env.LeaderClose leader = some e →
      s.GetOrCreateFollower env ns shardId = ⟨s, (none, some e), [.LeaderClose leader]⟩) := by
  constructor
  · intro follower hf hclose
    have hl := get_none_of_singleRole_follower hinv hf
    simp [shardsDirector.GetOrCreateLeader, hopen, hl, hf, hclose]
  · intro leader hl hclose
    have hf := get_none_of_singleRole_leader hinv hl
    simp [shardsDirector.GetOrCreateFollower, hopen, hl, hf, hclose]

/-- C3 at concrete inputs: with every `Close` failing with error 9, promoting
the follower 201 of shard 1 and demoting the leader 101 of shard 1 both fail
with that error and change nothing. -/
theorem C3_role_flip_close_error_witness :
    directorWithFollower.GetOrCreateLeader (envFail 9) "ns" 1 =
      ⟨directorWithFollower, (none, some (.single (.other 9))), [.FollowerClose 201]⟩ ∧
    directorWithLeader.GetOrCreateFollower (envFail 9) "ns" 1 =
      ⟨directorWithLeader, (none, some (.single (.other 9))), [.LeaderClose 101]⟩ :=
  ⟨(C3_role_flip_close_error (envFail 9) directorWithFollower "ns" 1 (.single (.other 9))
      (by decide) (by decide)).1 201 (by decide) (by decide),
   (C3_role_flip_close_error (envFail 9) directorWithLeader "ns" 1 (.single (.other 9))
      (by decide) (by decide)).2 101 (by decide) (by decide)⟩

/-- C4. On an open director, if shard `shardId` is not already in the requested
role, the controller of the opposite role (when there is one) closes without
error and the constructor of the new controller fails with `e`, then
`GetOrCreateLeader` (resp. `GetOrCreateFollower`) returns `(nil, e)` and
afterwards the shard id is a key of neither map. The outside calls are the
`Close` of the old controller, if any, followed by the one failed
constructor call: the prior role is not built again. -/
theorem C4_failed_construction_role_none (env : Env L F Resp) (s : shardsDirector L F)
    (ns : String) (shardId : Int) (e : GoError) (hopen : s.closed = false) :
    (s.leaders.get shardId = none →
      (∀ follower, s.followers.get shardId = some follower →
        env.FollowerClose follower = none) →
      env.NewLeaderController ns shardId = .error e →
      (s.GetOrCreateLeader env ns shardId).ret = (none, some e) ∧
      (s.GetOrCreateLeader env ns shardId).state.leaders.get shardId = none ∧
      (s.GetOrCreateLeader env ns shardId).state.followers.get shardId = none ∧
      (s.GetOrCreateLeader env ns shardId).calls =
        (match s.followers.get shardId with
          | some follower => [Call.FollowerClose follower]
          | none => []) ++ [Call.NewLeaderController ns shardId]) ∧
    (s.followers.get shardId = none →
      (∀ leader, s.leaders.get shardId = some leader → env.LeaderClose leader = none) →
      env.NewFollowerController ns shardId = .error e →
      (s.GetOrCreateFollower env ns shardId).ret = (none, some e) ∧
      (s.GetOrCreateFollower env ns shardId).state.leaders.get shardId = none ∧
      (s.GetOrCreateFollower env ns shardId).state.followers.get shardId = none ∧
      (s.GetOrCreateFollower env ns shardId).calls =
        (match s.leaders.get shardId with
          | some leader => [Call.LeaderClose leader]
          | none => []) ++ [Call.NewFollowerController ns shardId]) := by
  constructor
  · intro hl hclose hctor
    cases hf : s.followers.get shardId with
    | none =>
      simp [shardsDirector.GetOrCreateLeader, shardsDirector.createLeader, hopen, hl, hf, hctor]
    | some follower =>
      have hc := hclose follower hf
      simp [shardsDirector.GetOrCreateLeader, shardsDirector.createLeader, hopen, hl, hf, hc,
        hctor, GoMap.get_delete_self]
  · intro hf hclose hctor
    cases hl : s.leaders.get shardId with
    | none =>
      simp [shardsDirector.GetOrCreateFollower, shardsDirector.createFollower, hopen, hl, hf,
        hctor]
    | some leader =>
      have hc := hclose leader hl
      simp [shardsDirector.GetOrCreateFollower, shardsDirector.createFollower, hopen, hl, hf,
        hc, hctor, GoMap.get_delete_self]

/-- C4 at concrete inputs: with both constructors failing with error 5,
promoting the follower 201 of shard 1 closes it and leaves shard 1 in neither
map, and so does demoting the leader 101 of shard 1. -/
theorem C4_failed_construction_role_none_witness :
    ((directorWithFollower.GetOrCreateLeader (envNoCtor 5) "ns" 1).ret =
        (none, some (.single (.other 5))) ∧
      (directorWithFollower.GetOrCreateLeader (envNoCtor 5) "ns" 1).state.leaders.get 1 = none ∧
      (directorWithFollower.GetOrCreateLeader (envNoCtor 5) "ns" 1).state.followers.get 1
        = none ∧
      (directorWithFollower.GetOrCreateLeader (envNoCtor 5) "ns" 1).calls =
        (match directorWithFollower.followers.get 1 with
          | some follower => [Call.FollowerClose follower]
          | none => []) ++ [Call.NewLeaderController "ns" 1]) ∧
    ((directorWithLeader.GetOrCreateFollower (envNoCtor 5) "ns" 1).ret =
        (none, some (.single (.other 5))) ∧
      (directorWithLeader.GetOrCreateFollower (envNoCtor 5) "ns" 1).state.leaders.get 1 = none ∧
      (directorWithLeader.GetOrCreateFollower (envNoCtor 5) "ns" 1).state.followers.get 1
        = none ∧
      (directorWithLeader.GetOrCreateFollower (envNoCtor 5) "ns" 1).calls =
        (match directorWithLeader.leaders.get 1 with
          | some leader => [Call.LeaderClose leader]
          | none => []) ++ [Call.NewFollowerController "ns" 1]) :=
  ⟨(C4_failed_construction_role_none (envNoCtor 5) directorWithFollower "ns" 1
      (.single (.other 5)) (by decide)).1 (by decide) (by decide) rfl,
   (C4_failed_construction_role_none (envNoCtor 5) directorWithLeader "ns" 1
      (.single (.other 5)) (by decide)).2 (by decide) (by decide) rfl⟩

/-- C5. On an open director (satisfying the single-role invariant) in which
shard `shardId` is registered as the follower `follower`, the outside calls of
`GetOrCreateLeader(ns, shardId)` are: first `Close` on that follower, once, and
then, only if that `Close` returned no error, the leader constructor. No other
controller is closed. When the call succeeds, the shard id is afterwards a key
of the leaders map, bound to the returned controller, and not a key of the
followers map. -/
theorem C5_leader_after_follower_closes_once (env : Env L F Resp) (s : shardsDirector L F)
    (ns : String) (shardId : Int) (follower : F)
    (hopen : s.closed = false) (hinv : s.SingleRole)
    (hf : s.followers.get shardId = some follower) :
    (s.GetOrCreateLeader env ns shardId).calls =
      Call.FollowerClose follower ::
        (if env.FollowerClose follower = none then [Call.NewLeaderController ns shardId]
         else []) ∧
    ((s.GetOrCreateLeader env ns shardId).calls.filter
        (fun c => match c with
          | .LeaderClose _ => true
          | .FollowerClose _ => true
          | _ => false)).length = 1 ∧
    ((s.GetOrCreateLeader env ns shardId).ret.2 = none →
      (∃ lc, (s.GetOrCreateLeader env ns shardId).ret.1 = some lc ∧
        (s.GetOrCreateLeader env ns shardId).state.leaders.get shardId = some lc) ∧
      (s.GetOrCreateLeader env ns shardId).state.followers.get shardId = none) := by
  have hl := get_none_of_singleRole_follower hinv hf
  cases hc : env.FollowerClose follower with
  | some err =>
    simp [shardsDirector.GetOrCreateLeader, hopen, hl, hf, hc]
  | none =>
    cases hctor : env.NewLeaderController ns shardId with
    | error err =>
      simp [shardsDirector.GetOrCreateLeader, shardsDirector.createLeader, hopen, hl, hf, hc,
        hctor]
    | ok lc =>
      simp [shardsDirector.GetOrCreateLeader, shardsDirector.createLeader, hopen, hl, hf, hc,
        hctor, GoMap.get_set_self, GoMap.get_delete_self]

/-- C5 at a concrete input: on the director left by a successful
`GetOrCreateFollower("ns", 1)`, the call `GetOrCreateLeader("ns", 1)` closes
the follower 201 and then builds the leader 101. -/
theorem C5_leader_after_follower_closes_once_witness :
    (directorWithFollower.GetOrCreateLeader envOk "ns" 1).calls =
      [Call.FollowerClose 201, Call.NewLeaderController "ns" 1] ∧
    (directorWithFollower.GetOrCreateLeader envOk "ns" 1).state.leaders.get 1 = some 101 ∧
    (directorWithFollower.GetOrCreateLeader envOk "ns" 1).state.followers.get 1 = none :=
  ⟨(C5_leader_after_follower_closes_once envOk directorWithFollower "ns" 1 201
      (by decide) (by decide) (by decide)).1,
   by
    obtain ⟨⟨lc, h1, h2⟩, _⟩ := (C5_leader_after_follower_closes_once envOk
      directorWithFollower "ns" 1 201 (by decide) (by decide) (by decide)).2.2 (by decide)
    have h3 : (directorWithFollower.GetOrCreateLeader envOk "ns" 1).ret.1 = some 101 := by
      decide
    rw [h2, ← h1, h3],
   ((C5_leader_after_follower_closes_once envOk directorWithFollower "ns" 1 201
      (by decide) (by decide) (by decide)).2.2 (by decide)).2⟩

end DirectorRoles

/-! ## Deleting a shard -/

section DirectorDelete

variable {L F Resp : Type}

/-- C6. If `DeleteShard(req)` returns without error on a director satisfying the
single-role invariant, then (a) its outside calls are exactly: `DeleteShard` on
the leader registered for `req.ShardId` if there is one; otherwise
`DeleteShard` on the registered follower if there is one; otherwise the
follower constructor followed by `DeleteShard` on the follower it built, which
enters neither map (both maps are left as they were); and (b) afterwards
`req.ShardId` is a key of neither the leaders map nor the followers map. -/
theorem C6_delete_shard_success (env : Env L F Resp) (s : shardsDirector L F)
    (req : DeleteShardRequest) (hinv : s.SingleRole)
    (hok : (s.DeleteShard env req).ret.2 = none) :
    (∀ leader, s.leaders.get req.ShardId = some leader →
      (s.DeleteShard env req).calls = [Call.LeaderDeleteShard leader req]) ∧
    (s.leaders.get req.ShardId = none →
      ∀ follower, s.followers.get req.ShardId = some follower →
        (s.DeleteShard env req).calls = [Call.FollowerDeleteShard follower req]) ∧
    (s.leaders.get req.ShardId = none → s.followers.get req.ShardId = none →
      ∃ fc, env.NewFollowerController req.Namespace req.ShardId = .ok fc ∧
        (s.DeleteShard env req).calls =
          [Call.NewFollowerController req.Namespace req.ShardId,
           Call.FollowerDeleteShard fc req] ∧
        (s.DeleteShard env req).state.leaders = s.leaders ∧
        (s.DeleteShard env req).state.followers = s.followers) ∧
    (s.DeleteShard env req).state.leaders.get req.ShardId = none ∧
    (s.DeleteShard env req).state.followers.get req.ShardId = none := by
  cases hl : s.leaders.get req.ShardId with
  | some leader =>
    have hf := get_none_of_singleRole_leader hinv hl
    rcases hd : env.LeaderDeleteShard leader req with ⟨resp, _ | err⟩
    · simp [shardsDirector.DeleteShard, hl, hd, hf, GoMap.get_delete_self]
    · simp [shardsDirector.DeleteShard, hl, hd] at hok
  | none =>
    cases hf : s.followers.get req.ShardId with
    | some follower =>
      rcases hd : env.FollowerDeleteShard follower req with ⟨resp, _ | err⟩
      · simp [shardsDirector.DeleteShard, hl, hf, hd, GoMap.get_delete_self]
      · simp [shardsDirector.DeleteShard, hl, hf, hd] at hok
    | none =>
      cases hctor : env.NewFollowerController req.Namespace req.ShardId with
      | error err => simp [shardsDirector.DeleteShard, hl, hf, hctor] at hok
      | ok fc => simp [shardsDirector.DeleteShard, hl, hf, hctor]

/-- C6 at concrete inputs: deleting shard 1 on the director that leads it asks
the leader 101 and leaves shard 1 in neither map; deleting the unknown shard 7
builds the follower 207, asks it, and leaves the maps as they were. -/
theorem C6_delete_shard_success_witness :
    (directorWithLeader.DeleteShard envOk ⟨"ns", 1⟩).calls =
      [Call.LeaderDeleteShard 101 ⟨"ns", 1⟩] ∧
    (directorWithLeader.DeleteShard envOk ⟨"ns", 1⟩).state.leaders.get 1 = none ∧
    (directorWithLeader.DeleteShard envOk ⟨"ns", 1⟩).state.followers.get 1 = none ∧
    (∃ fc, envOk.NewFollowerController "ns" 7 = .ok fc ∧
      (directorWithLeader.DeleteShard envOk ⟨"ns", 7⟩).calls =
        [Call.NewFollowerController "ns" 7, Call.FollowerDeleteShard fc ⟨"ns", 7⟩] ∧
      (directorWithLeader.DeleteShard envOk ⟨"ns", 7⟩).state.leaders =
        directorWithLeader.leaders ∧
      (directorWithLeader.DeleteShard envOk ⟨"ns", 7⟩).state.followers =
        directorWithLeader.followers) :=
  ⟨(C6_delete_shard_success envOk directorWithLeader ⟨"ns", 1⟩ (by decide) (by decide)).1
      101 (by decide),
   (C6_delete_shard_success envOk directorWithLeader ⟨"ns", 1⟩ (by decide) (by decide)).2.2.2.1,
   (C6_delete_shard_success envOk directorWithLeader ⟨"ns", 1⟩ (by decide) (by decide)).2.2.2.2,
   (C6_delete_shard_success envOk directorWithLeader ⟨"ns", 7⟩ (by decide) (by decide)).2.2.1
      (by decide) (by decide)⟩

end DirectorDelete

/-! ## Closing loops and error aggregation -/

section Closing

theorem multierr_Errors_fromSlice (es : List Err) :
    multierr.Errors (multierr.fromSlice es) = es := by
  match es with
  | [] => rfl
  | [_] => rfl
  | _ :: _ :: _ => rfl

theorem multierr_Errors_Append (left right : Error) :
    multierr.Errors (multierr.Append left right) =
      multierr.Errors left ++ multierr.Errors right := by
  match left, right with
  | none, r => simp [multierr.Append, multierr.Errors]
  | some l, none => simp [multierr.Append, multierr.Errors]
  | some (.single l), some (.single r) => simp [multierr.Append, multierr.Errors]
  | some (.multiError l1 l2 ls), some (.single r) => simp [multierr.Append, multierr.Errors]
  | some (.single l), some (.multiError r1 r2 rs) =>
    simp [multierr.Append, multierr.Errors, multierr.fromSlice]
  | some (.multiError l1 l2 ls), some (.multiError r1 r2 rs) =>
    simp [multierr.Append, multierr.Errors, multierr.fromSlice]

theorem multierr_Errors_eq_nil (err : Error) : multierr.Errors err = [] ↔ err = none := by
  match err with
  | none => simp [multierr.Errors]
  | some (.single e) => simp [multierr.Errors]
  | some (.multiError e1 e2 rest) => simp [multierr.Errors]

theorem multierr_Append_eq_none (left right : Error) :
    multierr.Append left right = none ↔ left = none ∧ right = none := by
  rw [← multierr_Errors_eq_nil, multierr_Errors_Append, List.append_eq_nil,
    multierr_Errors_eq_nil, multierr_Errors_eq_nil]

theorem foldl_closeStep {C K : Type} (close : C → Error) (mk : C → K)
    (es : List (Int × C)) (acc : Error × List K) :
    (es.foldl (closeStep close mk) acc).2 = acc.2 ++ es.map (fun e => mk e.2) ∧
    multierr.Errors (es.foldl (closeStep close mk) acc).1 =
      multierr.Errors acc.1 ++ es.flatMap (fun e => multierr.Errors (close e.2)) := by
  induction es generalizing acc with
  | nil => simp
  | cons e es ih =>
    obtain ⟨h1, h2⟩ := ih (closeStep close mk acc e)
    simp only [List.foldl_cons, List.map_cons, List.flatMap_cons]
    rw [h1, h2]
    simp [closeStep, multierr_Errors_Append]

/-- C7. For every director state and every behaviour of the controllers,
`Close` calls `Close` once on the controller of every entry of the leaders map
and then once on the controller of every entry of the followers map, whatever
the earlier calls returned. It returns `nil` exactly when every one of these
calls returned `nil`; the error it returns stands for exactly the errors
returned by these calls, in the order of the calls. It sets the `closed` flag
and leaves both maps as they were. -/
theorem C7_director_close_attempts_all {L F Resp : Type} (env : Env L F Resp)
    (s : shardsDirector L F) :
    (s.Close env).calls =
      s.leaders.entries.map (fun e => Call.LeaderClose e.2) ++
      s.followers.entries.map (fun e => Call.FollowerClose e.2) ∧
    ((s.Close env).ret = none ↔
      (∀ e ∈ s.leaders.entries, env.LeaderClose e.2 = none) ∧
      (∀ e ∈ s.followers.entries, env.FollowerClose e.2 = none)) ∧
    multierr.Errors (s.Close env).ret =
      s.leaders.entries.flatMap (fun e => multierr.Errors (env.LeaderClose e.2)) ++
      s.followers.entries.flatMap (fun e => multierr.Errors (env.FollowerClose e.2)) ∧
    (s.Close env).state = { s with closed := true } := by
  have hL := foldl_closeStep env.LeaderClose (Call.LeaderClose : L → Call L F)
    s.leaders.entries (none, [])
  have hF := foldl_closeStep env.FollowerClose (Call.FollowerClose : F → Call L F)
    s.followers.entries
    (s.leaders.entries.foldl (closeStep env.LeaderClose Call.LeaderClose) (none, []))
  have hE : multierr.Errors (s.Close env).ret =
      s.leaders.entries.flatMap (fun e => multierr.Errors (env.LeaderClose e.2)) ++
      s.followers.entries.flatMap (fun e => multierr.Errors (env.FollowerClose e.2)) := by
    simp only [shardsDirector.Close]
    rw [hF.2, hL.2]
    simp [multierr.Errors]
  refine ⟨?_, ?_, hE, rfl⟩
  · simp only [shardsDirector.Close]
    rw [hF.1, hL.1]
    simp
  · rw [← multierr_Errors_eq_nil, hE]
    simp [List.flatMap_eq_nil_iff, multierr_Errors_eq_nil]

end Closing

/-! ## The batcher manager -/

section ManagerFacts

variable {B : Type}

theorem Manager_Get_hit (batcherFactory : Int → B) (m : Manager B) (shardId : Int) (b : B)
    (h : m.batchers.get shardId = some b) :
    m.Get batcherFactory shardId = ⟨m, b, []⟩ := by
  simp [Manager.Get, h]

theorem Manager_Get_miss (batcherFactory : Int → B) (m : Manager B) (shardId : Int)
    (h : m.batchers.get shardId = none) :
    m.Get batcherFactory shardId =
      ⟨⟨m.batchers.set shardId (batcherFactory shardId)⟩, batcherFactory shardId, [shardId]⟩ := by
  simp [Manager.Get, h]

theorem Manager_Get_stores (batcherFactory : Int → B) (m : Manager B) (shardId : Int) :
    (m.Get batcherFactory shardId).state.batchers.get shardId =
      some (m.Get batcherFactory shardId).ret := by
  cases h : m.batchers.get shardId with
  | some b => rw [Manager_Get_hit _ _ _ _ h]; exact h
  | none => rw [Manager_Get_miss _ _ _ h]; exact GoMap.get_set_self _ _ _

theorem Manager_Get_keeps (batcherFactory : Int → B) (m : Manager B) (shardId k : Int) (b : B)
    (hk : m.batchers.get k = some b) :
    (m.Get batcherFactory shardId).state.batchers.get k = some b := by
  cases h : m.batchers.get shardId with
  | some b2 => rw [Manager_Get_hit _ _ _ _ h]; exact hk
  | none =>
    rw [Manager_Get_miss _ _ _ h]
    have hne : k ≠ shardId := by
      intro heq
      rw [heq, h] at hk
      exact Option.noConfusion hk
    simpa [GoMap.get_set_ne _ _ hne] using hk

theorem Manager_runGet_ids (m : Manager B) (steps : List ((Int → B) × Int)) :
    (m.runGet steps).ret.map Prod.fst = steps.map Prod.snd := by
  induction steps generalizing m with
  | nil => rfl
  | cons st rest ih =>
    obtain ⟨f, shardId⟩ := st
    simp [Manager.runGet, ih]

theorem Manager_runGet_count (m : Manager B) (steps : List ((Int → B) × Int)) (k : Int) :
    (m.runGet steps).calls.count k =
      if k ∈ steps.map Prod.snd ∧ m.batchers.contains k = false then 1 else 0 := by
  induction steps generalizing m with
  | nil => simp [Manager.runGet]
  | cons st rest ih =>
    obtain ⟨f, shardId⟩ := st
    simp only [Manager.runGet, List.count_append, List.map_cons, List.mem_cons]
    rw [ih]
    cases h : m.batchers.get shardId with
    | some b =>
      rw [Manager_Get_hit _ _ _ _ h]
      by_cases hk : k = shardId
      · subst hk; simp [h, GoMap.contains]
      · by_cases hm : k ∈ List.map Prod.snd rest <;>
          by_cases hc : m.batchers.contains k = false <;> simp [hk, hm, hc]
    | none =>
      rw [Manager_Get_miss _ _ _ h]
      by_cases hk : k = shardId
      · subst hk; simp [h, GoMap.contains, GoMap.get_set_self]
      · have hk2 : ¬ shardId = k := fun h2 => hk h2.symm
        have hg : (GoMap.set m.batchers shardId (f shardId)).contains k =
            m.batchers.contains k := by
          simp [GoMap.contains, GoMap.get_set_ne _ _ hk]
        simp only [hg]
        by_cases hm : k ∈ List.map Prod.snd rest <;>
          by_cases hc : m.batchers.contains k = false <;>
          simp [hk, hm, hc, List.count_cons, hk2]

theorem Manager_runGet_same (m : Manager B) (steps : List ((Int → B) × Int)) :
    (∀ p ∈ (m.runGet steps).ret, ∀ b, m.batchers.get p.1 = some b → p.2 = b) ∧
    (∀ p ∈ (m.runGet steps).ret, ∀ q ∈ (m.runGet steps).ret, p.1 = q.1 → p.2 = q.2) := by
  induction steps generalizing m with
  | nil => simp [Manager.runGet]
  | cons st rest ih =>
    obtain ⟨f, shardId⟩ := st
    obtain ⟨ih1, ih2⟩ := ih (m.Get f shardId).state
    have hstore := Manager_Get_stores f m shardId
    have hhead : ∀ q ∈ ((m.Get f shardId).state.runGet rest).ret, q.1 = shardId →
        q.2 = (m.Get f shardId).ret := by
      intro q hq hqk
      apply ih1 q hq
      rw [hqk]; exact hstore
    simp only [Manager.runGet, List.mem_cons]
    constructor
    · intro p hp b hb
      rcases hp with hp | hp
      · subst hp
        simp only at hb ⊢
        rw [Manager_Get_hit _ _ _ _ hb]
      · exact ih1 p hp b (Manager_Get_keeps f m shardId p.1 b hb)
    · intro p hp q hq hpq
      rcases hp with hp | hp <;> rcases hq with hq | hq
      · rw [hp, hq]
      · subst hp
        exact (hhead q hq hpq.symm).symm
      · subst hq
        exact hhead p hp hpq
      · exact ih2 p hp q hq hpq

theorem foldl_Manager_closeStep (close : B → Error) (es : List (Int × B))
    (acc : GoMap B × Error × List B) :
    (es.foldl (Manager.closeStep close) acc).1.entries =
      acc.1.entries.filter (fun x => decide (x.1 ∉ es.map Prod.fst)) ∧
    (es.foldl (Manager.closeStep close) acc).2.2 = acc.2.2 ++ es.map Prod.snd ∧
    multierr.Errors (es.foldl (Manager.closeStep close) acc).2.1 =
      multierr.Errors acc.2.1 ++ es.flatMap (fun e => multierr.Errors (close e.2)) := by
  induction es generalizing acc with
  | nil => simp
  | cons e es ih =>
    obtain ⟨h1, h2, h3⟩ := ih (Manager.closeStep close acc e)
    simp only [List.foldl_cons, List.map_cons, List.flatMap_cons]
    rw [h1, h2, h3]
    refine ⟨?_, ?_, ?_⟩
    · simp only [Manager.closeStep, GoMap.delete, List.filter_filter]
      apply List.filter_congr
      intro x _
      by_cases hx : x.1 = e.1
      · simp [hx]
      · have hb : (x.1 == e.1) = false := by simpa using hx
        simp [hx, hb]
    · simp [Manager.closeStep]
    · simp [Manager.closeStep, multierr_Errors_Append]

/-- C8. For every manager state and shard id, `Get` returns the stored batcher
without invoking the factory when the map has an entry for the id; otherwise it
invokes the factory exactly once, with that id, stores the result under the id
and returns it. Over any sequence of `Get` calls with no `Close` in between,
however the factory behaves from call to call: the factory is invoked exactly
once for each requested id that was not in the map at the start and never for
the others (so, from a new manager, exactly once per distinct id), and all
`Get` calls for the same id return the same batcher. -/
theorem C8_manager_get_creates_once (m : Manager B) :
    (∀ (batcherFactory : Int → B) (shardId : Int) (b : B),
      m.batchers.get shardId = some b → m.Get batcherFactory shardId = ⟨m, b, []⟩) ∧
    (∀ (batcherFactory : Int → B) (shardId : Int),
      m.batchers.get shardId = none →
        m.Get batcherFactory shardId =
          ⟨⟨m.batchers.set shardId (batcherFactory shardId)⟩, batcherFactory shardId,
            [shardId]⟩ ∧
        (m.Get batcherFactory shardId).state.batchers.get shardId =
          some (batcherFactory shardId)) ∧
    (∀ (steps : List ((Int → B) × Int)),
      (m.runGet steps).ret.map Prod.fst = steps.map Prod.snd ∧
      (∀ k, (m.runGet steps).calls.count k =
        if k ∈ steps.map Prod.snd ∧ m.batchers.contains k = false then 1 else 0) ∧
      (∀ p ∈ (m.runGet steps).ret, ∀ q ∈ (m.runGet steps).ret, p.1 = q.1 → p.2 = q.2)) ∧
    (∀ (steps : List ((Int → B) × Int)) (k : Int), k ∈ steps.map Prod.snd →
      ((NewManager : Manager B).runGet steps).calls.count k = 1) := by
  refine ⟨fun f shardId b h => Manager_Get_hit f m shardId b h, fun f shardId h => ?_,
    fun steps => ⟨Manager_runGet_ids m steps, fun k => Manager_runGet_count m steps k,
      (Manager_runGet_same m steps).2⟩, fun steps k hk => ?_⟩
  · rw [Manager_Get_miss f m shardId h]
    exact ⟨rfl, GoMap.get_set_self _ _ _⟩
  · rw [Manager_runGet_count]
    have h0 : (NewManager : Manager B).batchers.contains k = false := by
      simp [NewManager, GoMap.empty, GoMap.contains, GoMap.get]
    simp [hk, h0]

/-- C8 at concrete inputs: on the manager holding batcher 1001 for shard 1,
`Get(1)` returns 1001 without the factory and `Get(2)` builds 2002 and stores
it; asking a new manager for shards 1, 2, 1 with a factory that changes
behaviour after the first call invokes the factory for 1 once, and both
`Get(1)` calls return the same batcher. -/
theorem C8_manager_get_creates_once_witness :
    managerWithOne.Get factoryB 1 = ⟨managerWithOne, 1001, []⟩ ∧
    (managerWithOne.Get factoryB 2 =
        ⟨⟨managerWithOne.batchers.set 2 (factoryB 2)⟩, factoryB 2, [2]⟩ ∧
      (managerWithOne.Get factoryB 2).state.batchers.get 2 = some (factoryB 2)) ∧
    ((NewManager : Manager Nat).runGet [(factoryA, 1), (factoryB, 2), (factoryB, 1)]).calls.count 1
      = 1 ∧
    ((NewManager : Manager Nat).runGet [(factoryA, 1), (factoryB, 2), (factoryB, 1)]).ret =
      [(1, 1001), (2, 2002), (1, 1001)] :=
  ⟨(C8_manager_get_creates_once managerWithOne).1 factoryB 1 1001 (by decide),
   (C8_manager_get_creates_once managerWithOne).2.1 factoryB 2 (by decide),
   (C8_manager_get_creates_once managerWithOne).2.2.2
      [(factoryA, 1), (factoryB, 2), (factoryB, 1)] 1 (by decide),
   by decide⟩

/-- C9. For every manager state and every behaviour of the batchers,
`Manager.Close` calls `Close` once on the batcher of every entry of the map, in
iteration order, whatever the earlier calls returned. It returns `nil` exactly
when every one of these calls returned `nil`; the error it returns stands for
exactly the errors returned by these calls, in order. It leaves the map
empty. -/
theorem C9_manager_close_attempts_all (close : B → Error) (m : Manager B) :
    (m.Close close).calls = m.batchers.entries.map Prod.snd ∧
    ((m.Close close).ret = none ↔ ∀ e ∈ m.batchers.entries, close e.2 = none) ∧
    multierr.Errors (m.Close close).ret =
      m.batchers.entries.flatMap (fun e => multierr.Errors (close e.2)) ∧
    (m.Close close).state.batchers.entries = [] ∧
    (m.Close close).state = NewManager := by
  obtain ⟨h1, h2, h3⟩ := foldl_Manager_closeStep close m.batchers.entries (m.batchers, none, [])
  have hE : multierr.Errors (m.Close close).ret =
      m.batchers.entries.flatMap (fun e => multierr.Errors (close e.2)) := by
    simp only [Manager.Close]
    rw [h3]
    simp [multierr.Errors]
  have hempty : (m.Close close).state.batchers.entries = [] := by
    simp only [Manager.Close]
    rw [h1, List.filter_eq_nil_iff]
    intro x hx
    simp only [decide_eq_true_eq, not_not]
    exact List.mem_map_of_mem Prod.fst hx
  refine ⟨?_, ?_, hE, hempty, ?_⟩
  · simp only [Manager.Close]
    rw [h2]
    simp
  · rw [← multierr_Errors_eq_nil, hE]
    simp [List.flatMap_eq_nil_iff, multierr_Errors_eq_nil]
  · cases hs : (m.Close close).state with
    | mk bs =>
      cases bs with
      | mk es =>
        rw [hs] at hempty
        simp only at hempty
        rw [hempty]
        rfl

end ManagerFacts

/-! ## The slash-aware order -/

section SlashOrder

theorem bytesCompare_range (a b : List Nat) :
    bytesCompare a b = -1 ∨ bytesCompare a b = 0 ∨ bytesCompare a b = 1 := by
  induction a generalizing b with
  | nil => cases b <;> simp [bytesCompare]
  | cons x xs ih =>
    cases b with
    | nil => simp [bytesCompare]
    | cons y ys =>
      simp only [bytesCompare]
      split_ifs
      · simp
      · simp
      · exact ih ys

theorem bytesCompare_self (a : List Nat) : bytesCompare a a = 0 := by
  induction a with
  | nil => rfl
  | cons x xs ih => simp [bytesCompare, ih]

theorem bytesCompare_eq_zero {a b : List Nat} (h : bytesCompare a b = 0) : a = b := by
  induction a generalizing b with
  | nil => cases b <;> simp_all [bytesCompare]
  | cons x xs ih =>
    cases b with
    | nil => simp [bytesCompare] at h
    | cons y ys =>
      simp only [bytesCompare] at h
      by_cases h1 : x < y
      · simp [h1] at h
      · by_cases h2 : y < x
        · simp [h1, h2] at h
        · simp only [h1, h2, if_false] at h
          have hxy : x = y := by omega
          rw [hxy, ih h]

theorem bytesCompare_swap (a b : List Nat) : bytesCompare a b = -bytesCompare b a := by
  induction a generalizing b with
  | nil => cases b <;> simp [bytesCompare]
  | cons x xs ih =>
    cases b with
    | nil => simp [bytesCompare]
    | cons y ys =>
      simp only [bytesCompare]
      by_cases h1 : x < y
      · have h2 : ¬ y < x := by omega
        simp [h1, h2]
      · by_cases h2 : y < x
        · simp [h1, h2]
        · simp only [h1, h2, if_false]
          exact ih ys

theorem bytesCompare_trans {a b c : List Nat} (hab : bytesCompare a b ≤ 0)
    (hbc : bytesCompare b c ≤ 0) : bytesCompare a c ≤ 0 := by
  induction a generalizing b c with
  | nil => cases c <;> simp [bytesCompare]
  | cons x xs ih =>
    cases b with
    | nil => simp [bytesCompare] at hab
    | cons y ys =>
      cases c with
      | nil => simp [bytesCompare] at hbc
      | cons z zs =>
        simp only [bytesCompare] at hab hbc ⊢
        split_ifs at hab hbc ⊢ <;> first | omega | exact ih hab hbc

theorem bytesCompare_lt_of_lt_of_le {a b c : List Nat} (hab : bytesCompare a b < 0)
    (hbc : bytesCompare b c ≤ 0) : bytesCompare a c < 0 := by
  have h1 : bytesCompare a c ≤ 0 := bytesCompare_trans (le_of_lt hab) hbc
  rcases lt_or_eq_of_le h1 with h2 | h2
  · exact h2
  · have hac := bytesCompare_eq_zero h2
    subst hac
    have h3 := bytesCompare_swap a b
    omega

theorem bytesCompare_lt_of_le_of_lt {a b c : List Nat} (hab : bytesCompare a b ≤ 0)
    (hbc : bytesCompare b c < 0) : bytesCompare a c < 0 := by
  have h1 : bytesCompare a c ≤ 0 := bytesCompare_trans hab (le_of_lt hbc)
  rcases lt_or_eq_of_le h1 with h2 | h2
  · exact h2
  · have hac := bytesCompare_eq_zero h2
    subst hac
    have h3 := bytesCompare_swap a b
    omega

theorem compareSegments_range (a b : List (List Nat)) :
    compareSegments a b = -1 ∨ compareSegments a b = 0 ∨ compareSegments a b = 1 := by
  induction a generalizing b with
  | nil => cases b <;> simp [compareSegments]
  | cons x xs ih =>
    rcases b with _ | ⟨y, _ | ⟨y2, ys⟩⟩ <;> rcases xs with _ | ⟨x2, xs⟩
    · simp [compareSegments]
    · simp [compareSegments]
    · simp only [compareSegments]; exact bytesCompare_range x y
    · simp [compareSegments]
    · simp [compareSegments]
    · simp only [compareSegments]
      split_ifs
      · exact ih (y2 :: ys)
      · exact bytesCompare_range x y

theorem compareSegments_self (a : List (List Nat)) : compareSegments a a = 0 := by
  induction a with
  | nil => rfl
  | cons x xs ih =>
    rcases xs with _ | ⟨x2, xs⟩
    · simp [compareSegments, bytesCompare_self]
    · simp [compareSegments, bytesCompare_self, ih]

theorem compareSegments_eq_zero {a b : List (List Nat)} (h : compareSegments a b = 0) :
    a = b := by
  induction a generalizing b with
  | nil => cases b <;> simp_all [compareSegments]
  | cons x xs ih =>
    rcases b with _ | ⟨y, _ | ⟨y2, ys⟩⟩ <;> rcases xs with _ | ⟨x2, xs⟩
    · simp [compareSegments] at h
    · simp [compareSegments] at h
    · simp only [compareSegments] at h
      rw [bytesCompare_eq_zero h]
    · simp [compareSegments] at h
    · simp [compareSegments] at h
    · simp only [compareSegments] at h
      by_cases h1 : bytesCompare x y = 0
      · simp only [h1, if_true] at h
        rw [bytesCompare_eq_zero h1, ih h]
      · simp only [h1, if_false] at h

theorem compareSegments_swap (a b : List (List Nat)) :
    compareSegments a b = -compareSegments b a := by
  induction a generalizing b with
  | nil => cases b <;> simp [compareSegments]
  | cons x xs ih =>
    rcases b with _ | ⟨y, _ | ⟨y2, ys⟩⟩ <;> rcases xs with _ | ⟨x2, xs⟩
    · simp [compareSegments]
    · simp [compareSegments]
    · simp only [compareSegments]; exact bytesCompare_swap x y
    · simp [compareSegments]
    · simp [compareSegments]
    · simp only [compareSegments]
      have hs := bytesCompare_swap x y
      by_cases h1 : bytesCompare x y = 0
      · have h2 : bytesCompare y x = 0 := by omega
        simp only [h1, h2, if_true]
        exact ih (y2 :: ys)
      · have h2 : ¬ bytesCompare y x = 0 := by omega
        simp only [h1, h2, if_false]
        exact hs

theorem compareSegments_trans {a b c : List (List Nat)} (hab : compareSegments a b ≤ 0)
    (hbc : compareSegments b c ≤ 0) : compareSegments a c ≤ 0 := by
  induction a generalizing b c with
  | nil => cases c <;> simp [compareSegments]
  | cons x xs ih =>
    rcases b with _ | ⟨y, _ | ⟨y2, ys⟩⟩ <;> rcases c with _ | ⟨z, _ | ⟨z2, zs⟩⟩ <;>
      rcases xs with _ | ⟨x2, xs⟩ <;> simp only [compareSegments] at hab hbc ⊢ <;>
      try omega
    · exact bytesCompare_trans hab hbc
    · by_cases h1 : bytesCompare x y = 0
      · have hxy := bytesCompare_eq_zero h1
        subst hxy
        simp only [h1, if_true] at hab
        by_cases h2 : bytesCompare x z = 0
        · simp only [h2, if_true] at hbc ⊢
          exact ih hab hbc
        · simp only [h2, if_false] at hbc ⊢
          exact hbc
      · simp only [h1, if_false] at hab
        have hlt : bytesCompare x y < 0 := lt_of_le_of_ne hab h1
        by_cases h2 : bytesCompare y z = 0
        · have hyz := bytesCompare_eq_zero h2
          subst hyz
          simp only [h1, if_false]
          exact hab
        · simp only [h2, if_false] at hbc
          have h3 := bytesCompare_lt_of_lt_of_le hlt hbc
          have h4 : ¬ bytesCompare x z = 0 := by omega
          simp only [h4, if_false]
          omega

theorem splitOnSlash_ne_nil (a : List Nat) : splitOnSlash a ≠ [] := by
  cases a with
  | nil => simp [splitOnSlash]
  | cons c cs =>
    simp only [splitOnSlash]
    split_ifs
    · simp
    · split <;> simp

theorem splitOnSlash_injective {a b : List Nat} (h : splitOnSlash a = splitOnSlash b) :
    a = b := by
  induction a generalizing b with
  | nil =>
    cases b with
    | nil => rfl
    | cons d ds =>
      simp only [splitOnSlash] at h
      split_ifs at h
      · have := splitOnSlash_ne_nil ds
        simp_all
      · split at h <;> simp at h
  | cons c cs ih =>
    cases b with
    | nil =>
      simp only [splitOnSlash] at h
      split_ifs at h
      · have := splitOnSlash_ne_nil cs
        simp_all
      · split at h <;> simp at h
    | cons d ds =>
      simp only [splitOnSlash] at h
      have hcs := splitOnSlash_ne_nil cs
      have hds := splitOnSlash_ne_nil ds
      rcases hscs : splitOnSlash cs with _ | ⟨s1, r1⟩
      · exact absurd hscs hcs
      rcases hsds : splitOnSlash ds with _ | ⟨s2, r2⟩
      · exact absurd hsds hds
      rw [hscs, hsds] at h
      by_cases h1 : c = slash <;> by_cases h2 : d = slash
      · simp only [h1, h2, if_true] at h
        have h3 : splitOnSlash cs = splitOnSlash ds := by
          rw [hscs, hsds]
          simpa using h
        rw [h1, h2, ih h3]
      · simp [h1, h2] at h
      · simp [h1, h2] at h
      · simp only [h1, h2, if_false, List.cons.injEq] at h
        obtain ⟨⟨hcd, hs⟩, hr⟩ := h
        have h3 : splitOnSlash cs = splitOnSlash ds := by
          rw [hscs, hsds, hs, hr]
        rw [hcd, ih h3]

/-- The model of the comparator passes every assertion of
`TestCompareWithSlash` (`server/kv/kv_pebble_test.go`, lines 231 to 251). -/
theorem CompareWithSlash_passes_TestCompareWithSlash :
    CompareWithSlash (key "aaaaa") (key "aaaaa") = 0 ∧
    CompareWithSlash (key "aaaaa") (key "zzzzz") = -1 ∧
    CompareWithSlash (key "bbbbb") (key "aaaaa") = 1 ∧
    CompareWithSlash (key "aaaaa") (key "") = 1 ∧
    CompareWithSlash (key "") (key "aaaaaa") = -1 ∧
    CompareWithSlash (key "") (key "") = 0 ∧
    CompareWithSlash (key "aaaaa") (key "aaaaaaaaaaa") = -1 ∧
    CompareWithSlash (key "aaaaaaaaaaa") (key "aaa") = 1 ∧
    CompareWithSlash (key "a") (key "/") = -1 ∧
    CompareWithSlash (key "/") (key "a") = 1 ∧
    CompareWithSlash (key "/aaaa") (key "/bbbbb") = -1 ∧
    CompareWithSlash (key "/aaaa") (key "/aa/a") = -1 ∧
    CompareWithSlash (key "/aaaa/a") (key "/aaaa/b") = -1 ∧
    CompareWithSlash (key "/aaaa/a/a") (key "/bbbbbbbbbb") = 1 ∧
    CompareWithSlash (key "/aaaa/a/a") (key "/aaaa/bbbbbbbbbb") = 1 ∧
    CompareWithSlash (key "/a/b/a/a/a") (key "/a/b/a/b") = 1 := by
  decide

/-- C10. On the comparator as modelled from §3 and the assertions of
`TestCompareWithSlash`: `CompareWithSlash` is a total order on byte strings
(stated for strings over all natural numbers, bytes included). For all keys
`a`, `b`, `c` the result is one of `-1`, `0`, `+1`; `CompareWithSlash(a, a)` is
`0`; `CompareWithSlash(a, b) = 0` only if `a = b`; `CompareWithSlash(a, b)` is
the negation of `CompareWithSlash(b, a)`; and `CompareWithSlash(a, b) ≤ 0`
together with `CompareWithSlash(b, c) ≤ 0` gives `CompareWithSlash(a, c) ≤ 0`. -/
theorem C10_compare_with_slash_total_order (a b c : List Nat) :
    (CompareWithSlash a b = -1 ∨ CompareWithSlash a b = 0 ∨ CompareWithSlash a b = 1) ∧
    CompareWithSlash a a = 0 ∧
    (CompareWithSlash a b = 0 → a = b) ∧
    CompareWithSlash a b = -CompareWithSlash b a ∧
    (CompareWithSlash a b ≤ 0 → CompareWithSlash b c ≤ 0 → CompareWithSlash a c ≤ 0) := by
  unfold CompareWithSlash
  exact ⟨compareSegments_range _ _, compareSegments_self _,
    fun h => splitOnSlash_injective (compareSegments_eq_zero h),
    compareSegments_swap _ _, fun h1 h2 => compareSegments_trans h1 h2⟩

/-- C10 at concrete keys: `/a/b` is equal to itself under the comparator, and
from `/a/b ≤ /a/c` and `/a/c ≤ /a/b/x` it follows that `/a/b ≤ /a/b/x`. -/
theorem C10_compare_with_slash_total_order_witness :
    key "/a/b" = key "/a/b" ∧
    CompareWithSlash (key "/a/b") (key "/a/b/x") ≤ 0 :=
  ⟨(C10_compare_with_slash_total_order (key "/a/b") (key "/a/b") (key "/a/b")).2.2.1
      (by decide),
   (C10_compare_with_slash_total_order (key "/a/b") (key "/a/c") (key "/a/b/x")).2.2.2.2
      (by decide) (by decide)⟩

end SlashOrder

/-! ## Segments, parents and children -/

section SlashSegments

theorem splitOnSlash_of_no_slash {a : List Nat} (h : slash ∉ a) : splitOnSlash a = [a] := by
  induction a with
  | nil => rfl
  | cons c cs ih =>
    have hc : c ≠ slash := fun hc => h (by simp [hc])
    have hcs : slash ∉ cs := fun hcs => h (List.mem_cons_of_mem _ hcs)
    simp [splitOnSlash, hc, ih hcs]

theorem splitOnSlash_append_slash (p r : List Nat) :
    splitOnSlash (p ++ slash :: r) = splitOnSlash p ++ splitOnSlash r := by
  induction p with
  | nil => simp [splitOnSlash]
  | cons c cs ih =>
    simp only [List.cons_append, splitOnSlash]
    by_cases hc : c = slash
    · simp [hc, ih]
    · simp only [hc, if_false, List.append_eq]
      rw [ih]
      rcases hs : splitOnSlash cs with _ | ⟨seg, rest⟩
      · exact absurd hs (splitOnSlash_ne_nil cs)
      · simp

theorem splitOnSlash_of_slash_mem {b : List Nat} (h : slash ∈ b) :
    ∃ s1 s2 rest, splitOnSlash b = s1 :: s2 :: rest := by
  obtain ⟨p, r, hb⟩ := List.append_of_mem h
  subst hb
  rw [splitOnSlash_append_slash]
  rcases hp : splitOnSlash p with _ | ⟨p1, ps⟩
  · exact absurd hp (splitOnSlash_ne_nil p)
  rcases hr : splitOnSlash r with _ | ⟨r1, rs⟩
  · exact absurd hr (splitOnSlash_ne_nil r)
  cases ps with
  | nil => exact ⟨p1, r1, rs, rfl⟩
  | cons p2 ps => exact ⟨p1, p2, ps ++ r1 :: rs, rfl⟩

theorem compareSegments_append_left (s u v : List (List Nat)) (hu : u ≠ []) (hv : v ≠ []) :
    compareSegments (s ++ u) (s ++ v) = compareSegments u v := by
  induction s with
  | nil => rfl
  | cons x s ih =>
    rcases hsu : s ++ u with _ | ⟨u1, us⟩
    · simp [hu] at hsu
    rcases hsv : s ++ v with _ | ⟨v1, vs⟩
    · simp [hv] at hsv
    simp only [List.cons_append, hsu, hsv, compareSegments, bytesCompare_self, if_true]
    rw [← hsu, ← hsv]
    exact ih

theorem CompareWithSlash_parent_child (a x : List Nat) (ha : slash ∉ a) :
    CompareWithSlash a (a ++ slash :: x) = -1 := by
  unfold CompareWithSlash
  rw [splitOnSlash_append_slash, splitOnSlash_of_no_slash ha]
  rcases hx : splitOnSlash x with _ | ⟨x1, xs⟩
  · exact absurd hx (splitOnSlash_ne_nil x)
  · simp [compareSegments]

theorem CompareWithSlash_child_sibling (a b x : List Nat) (ha : slash ∉ a) (hb : slash ∉ b) :
    CompareWithSlash (a ++ slash :: x) b = 1 := by
  unfold CompareWithSlash
  rw [splitOnSlash_append_slash, splitOnSlash_of_no_slash ha, splitOnSlash_of_no_slash hb]
  rcases hx : splitOnSlash x with _ | ⟨x1, xs⟩
  · exact absurd hx (splitOnSlash_ne_nil x)
  · simp [compareSegments]

theorem CompareWithSlash_common_parent (p u v : List Nat) :
    CompareWithSlash (p ++ slash :: u) (p ++ slash :: v) = CompareWithSlash u v := by
  unfold CompareWithSlash
  rw [splitOnSlash_append_slash, splitOnSlash_append_slash]
  exact compareSegments_append_left _ _ _ (splitOnSlash_ne_nil u) (splitOnSlash_ne_nil v)

/-- C11, refuted as stated. The segments `a` and `b` contain no `/`, `a` sorts
before `b` bytewise and `x` is not empty, yet on the comparator as modelled
`CompareWithSlash("a/x", "b")` is `+1`, not `-1`; and `/a/b/x` sorts after
`/a/c`, as the assertion
`CompareWithSlash("/aaaa/a/a", "/aaaa/bbbbbbbbbb") = +1` of
`TestCompareWithSlash` has it for keys of the same shape. -/
theorem C11_child_sorts_after_sibling :
    slash ∉ key "a" ∧ slash ∉ key "b" ∧ bytesCompare (key "a") (key "b") = -1 ∧
    key "x" ≠ [] ∧
    CompareWithSlash (key "a" ++ slash :: key "x") (key "b") = 1 ∧
    CompareWithSlash (key "/a/b/x") (key "/a/c") = 1 ∧
    CompareWithSlash (key "/aaaa/a/a") (key "/aaaa/bbbbbbbbbb") = 1 := by
  decide

/-- C11, amended. For all segments `a`, `b` containing no `/` and every `x`: a
child key sorts after its parent, `CompareWithSlash(a, a/x) = -1`, and it also
sorts after the parent's sibling, `CompareWithSlash(a/x, b) = +1`, because a
key that has a further `/` sorts after every key that has none. The same holds
below any common parent `p`: `p/a < p/a/x` and `p/b < p/a/x`; in particular
`/a/b < /a/b/x` and `/a/c < /a/b/x`. -/
theorem C11_child_after_parent_and_sibling (p a b x : List Nat)
    (ha : slash ∉ a) (hb : slash ∉ b) :
    CompareWithSlash a (a ++ slash :: x) = -1 ∧
    CompareWithSlash (a ++ slash :: x) b = 1 ∧
    CompareWithSlash (p ++ slash :: a) (p ++ slash :: (a ++ slash :: x)) = -1 ∧
    CompareWithSlash (p ++ slash :: (a ++ slash :: x)) (p ++ slash :: b) = 1 := by
  refine ⟨CompareWithSlash_parent_child a x ha, CompareWithSlash_child_sibling a b x ha hb, ?_, ?_⟩
  · rw [CompareWithSlash_common_parent]
    exact CompareWithSlash_parent_child a x ha
  · rw [CompareWithSlash_common_parent]
    exact CompareWithSlash_child_sibling a b x ha hb

/-- C11, amended, at concrete keys: with parent `/a`, segments `b` and `c` and
child name `x`, `/a/b < /a/b/x` and `/a/b/x > /a/c`. -/
theorem C11_child_after_parent_and_sibling_witness :
    CompareWithSlash (key "/a" ++ slash :: key "b")
      (key "/a" ++ slash :: (key "b" ++ slash :: key "x")) = -1 ∧
    CompareWithSlash (key "/a" ++ slash :: (key "b" ++ slash :: key "x"))
      (key "/a" ++ slash :: key "c") = 1 :=
  ⟨(C11_child_after_parent_and_sibling (key "/a") (key "b") (key "c") (key "x")
      (by decide) (by decide)).2.2.1,
   (C11_child_after_parent_and_sibling (key "/a") (key "b") (key "c") (key "x")
      (by decide) (by decide)).2.2.2⟩

theorem bytesCompare_eq_neg_one_iff (a b : List Nat) :
    bytesCompare a b = -1 ↔ List.lt a b := by
  constructor
  · intro h
    induction a generalizing b with
    | nil =>
      cases b with
      | nil => simp [bytesCompare] at h
      | cons y ys => exact List.lt.nil y ys
    | cons x xs ih =>
      cases b with
      | nil => simp [bytesCompare] at h
      | cons y ys =>
        simp only [bytesCompare] at h
        by_cases h1 : x < y
        · exact List.lt.head xs ys h1
        · by_cases h2 : y < x
          · simp [h1, h2] at h
          · simp only [h1, h2, if_false] at h
            exact List.lt.tail h1 h2 (ih ys h)
  · intro h
    induction h with
    | nil y ys => simp [bytesCompare]
    | head xs ys hxy => simp [bytesCompare, hxy]
    | tail h1 h2 _ ih => simp [bytesCompare, h1, h2, ih]

theorem bytesCompare_eq_one_iff (a b : List Nat) :
    bytesCompare a b = 1 ↔ List.lt b a := by
  rw [← bytesCompare_eq_neg_one_iff, bytesCompare_swap a b]
  omega

theorem CompareWithSlash_of_no_slash {a b : List Nat} (ha : slash ∉ a) (hb : slash ∉ b) :
    CompareWithSlash a b = bytesCompare a b := by
  unfold CompareWithSlash
  rw [splitOnSlash_of_no_slash ha, splitOnSlash_of_no_slash hb]
  simp [compareSegments]

/-- C15. On the comparator as modelled: for all byte strings `a`, `b` that
contain no `/`, `CompareWithSlash(a, b)` is the result of the plain bytewise
comparison `bytes.Compare(a, b)`, that is `-1` exactly when `a` is below `b` in
the lexicographic order on byte lists, `0` exactly when `a = b` and `+1`
exactly when `b` is below `a`. So a proper prefix sorts before its extension,
and the empty key sorts before every non-empty key. -/
theorem C15_no_slash_is_bytewise (a b : List Nat) (ha : slash ∉ a) (hb : slash ∉ b) :
    CompareWithSlash a b = bytesCompare a b ∧
    (CompareWithSlash a b = -1 ↔ List.lt a b) ∧
    (CompareWithSlash a b = 0 ↔ a = b) ∧
    (CompareWithSlash a b = 1 ↔ List.lt b a) ∧
    (∀ c t, b = a ++ c :: t → CompareWithSlash a b = -1) ∧
    (b ≠ [] → CompareWithSlash [] b = -1) := by
  have h := CompareWithSlash_of_no_slash ha hb
  refine ⟨h, ?_, ?_, ?_, ?_, ?_⟩
  · rw [h]; exact bytesCompare_eq_neg_one_iff a b
  · rw [h]
    constructor
    · exact bytesCompare_eq_zero
    · intro hab; rw [hab]; exact bytesCompare_self b
  · rw [h]; exact bytesCompare_eq_one_iff a b
  · intro c t hbt
    rw [h, bytesCompare_eq_neg_one_iff, hbt]
    clear h hbt ha hb
    induction a with
    | nil => exact List.lt.nil c t
    | cons x xs ih => exact List.lt.tail (lt_irrefl x) (lt_irrefl x) ih
  · intro hne
    have h0 : slash ∉ ([] : List Nat) := by simp
    rw [CompareWithSlash_of_no_slash h0 hb]
    cases b with
    | nil => exact absurd rfl hne
    | cons y ys => simp [bytesCompare]

/-- C15 at concrete keys, those of `TestCompareWithSlash`: `aaaaa` against
`zzzzz`, the prefix `aaaaa` against `aaaaaaaaaaa`, and the empty key against
`aaaaaa`. -/
theorem C15_no_slash_is_bytewise_witness :
    CompareWithSlash (key "aaaaa") (key "zzzzz") = bytesCompare (key "aaaaa") (key "zzzzz") ∧
    CompareWithSlash (key "aaaaa") (key "aaaaaaaaaaa") = -1 ∧
    CompareWithSlash [] (key "aaaaaa") = -1 :=
  ⟨(C15_no_slash_is_bytewise (key "aaaaa") (key "zzzzz") (by decide) (by decide)).1,
   (C15_no_slash_is_bytewise (key "aaaaa") (key "aaaaaaaaaaa") (by decide)
      (by decide)).2.2.2.2.1 97 (key "aaaaa") (by decide),
   (C15_no_slash_is_bytewise (key "aaaaa") (key "aaaaaa") (by decide) (by decide)).2.2.2.2.2
      (by decide)⟩

/-- C16. On the comparator as modelled: for every byte string `a` that contains
no `/` and every byte string `b` that contains at least one `/`,
`CompareWithSlash(a, b) = -1` and `CompareWithSlash(b, a) = +1`. -/
theorem C16_no_slash_before_slash (a b : List Nat) (ha : slash ∉ a) (hb : slash ∈ b) :
    CompareWithSlash a b = -1 ∧ CompareWithSlash b a = 1 := by
  obtain ⟨s1, s2, rest, hs⟩ := splitOnSlash_of_slash_mem hb
  unfold CompareWithSlash
  rw [splitOnSlash_of_no_slash ha, hs]
  simp [compareSegments]

/-- C16 at the keys of the test: `CompareWithSlash("a", "/") = -1` and
`CompareWithSlash("/", "a") = +1`. -/
theorem C16_no_slash_before_slash_witness :
    CompareWithSlash (key "a") (key "/") = -1 ∧ CompareWithSlash (key "/") (key "a") = 1 :=
  C16_no_slash_before_slash (key "a") (key "/") (by decide) (by decide)

end SlashSegments

/-! ## Range scans in slash-aware order -/

section RangeScan

theorem CompareWithSlash_self (a : List Nat) : CompareWithSlash a a = 0 :=
  compareSegments_self _

theorem CompareWithSlash_eq_zero {a b : List Nat} (h : CompareWithSlash a b = 0) : a = b :=
  splitOnSlash_injective (compareSegments_eq_zero h)

theorem CompareWithSlash_swap (a b : List Nat) :
    CompareWithSlash a b = -CompareWithSlash b a :=
  compareSegments_swap _ _

theorem CompareWithSlash_lt_trans {a b c : List Nat} (hab : CompareWithSlash a b < 0)
    (hbc : CompareWithSlash b c < 0) : CompareWithSlash a c < 0 := by
  have h1 : CompareWithSlash a c ≤ 0 := compareSegments_trans (le_of_lt hab) (le_of_lt hbc)
  rcases lt_or_eq_of_le h1 with h2 | h2
  · exact h2
  · have hac := CompareWithSlash_eq_zero h2
    subst hac
    have h3 := CompareWithSlash_swap a b
    omega

theorem mem_putKey (k j : List Nat) (store : List (List Nat)) :
    j ∈ putKey k store ↔ j = k ∨ j ∈ store := by
  induction store with
  | nil => simp [putKey]
  | cons i rest ih =>
    simp only [putKey]
    split_ifs with h1 h2
    · simp
    · have hki := CompareWithSlash_eq_zero h2
      subst hki
      simp
    · simp only [List.mem_cons, ih]
      tauto

theorem pairwise_putKey (k : List Nat) (store : List (List Nat))
    (h : store.Pairwise (fun i j => CompareWithSlash i j < 0)) :
    (putKey k store).Pairwise (fun i j => CompareWithSlash i j < 0) := by
  induction store with
  | nil => simp [putKey]
  | cons i rest ih =>
    obtain ⟨hi, hrest⟩ := List.pairwise_cons.1 h
    simp only [putKey]
    split_ifs with h1 h2
    · refine List.pairwise_cons.2 ⟨?_, h⟩
      intro j hj
      rcases List.mem_cons.1 hj with hj | hj
      · rw [hj]; exact h1
      · exact CompareWithSlash_lt_trans h1 (hi j hj)
    · exact h
    · refine List.pairwise_cons.2 ⟨?_, ih hrest⟩
      intro j hj
      rcases (mem_putKey k j rest).1 hj with hj | hj
      · rw [hj]
        have h3 := CompareWithSlash_swap k i
        omega
      · exact hi j hj

theorem committedKeys_foldl (puts store : List (List Nat))
    (h : store.Pairwise (fun i j => CompareWithSlash i j < 0)) :
    (∀ j, j ∈ puts.foldl (fun st k => putKey k st) store ↔ j ∈ puts ∨ j ∈ store) ∧
    (puts.foldl (fun st k => putKey k st) store).Pairwise
      (fun i j => CompareWithSlash i j < 0) := by
  induction puts generalizing store with
  | nil => simp [h]
  | cons k rest ih =>
    obtain ⟨h1, h2⟩ := ih (putKey k store) (pairwise_putKey k store h)
    refine ⟨fun j => ?_, h2⟩
    simp only [List.foldl_cons, h1, mem_putKey, List.mem_cons]
    tauto

/-- The model of the scan passes the assertions of `TestPebbbleKeyRangeScan`:
over `/root/a` to `/root/d`, the scan of `["/root/a", "/root/c")` yields
`/root/a` then `/root/b`, and the scan of `["/xyz/a", "/xyz/c")` yields
nothing. -/
theorem KeyRangeScan_passes_TestPebbbleKeyRangeScan :
    KeyRangeScan (committedKeys [key "/root/a", key "/root/b", key "/root/c", key "/root/d"])
      (key "/root/a") (key "/root/c") = [key "/root/a", key "/root/b"] ∧
    KeyRangeScan (committedKeys [key "/root/a", key "/root/b", key "/root/c", key "/root/d"])
      (key "/xyz/a") (key "/xyz/c") = [] := by
  decide

/-- C12. On the engine as modelled from §4.5: for every list of committed keys
and every pair of bounds, `KeyRangeScan(min, max)` yields a key exactly when it
is a stored key `k` with `CompareWithSlash(min, k) ≤ 0` and
`CompareWithSlash(k, max) < 0`, yields each such key exactly once, and yields
the keys in strictly ascending order of `CompareWithSlash`. Scanning
`["/a/b/a/", "/a/b/a//")` over the six keys of
`TestPebbleRangeScanWithSlashOrder` yields exactly `/a/b/a/a`, `/a/b/a/b`,
`/a/b/a/c`, in that order. -/
theorem C12_key_range_scan (puts : List (List Nat)) (min max : List Nat) :
    (∀ k, k ∈ KeyRangeScan (committedKeys puts) min max ↔
      k ∈ puts ∧ CompareWithSlash min k ≤ 0 ∧ CompareWithSlash k max < 0) ∧
    (∀ k, k ∈ puts → CompareWithSlash min k ≤ 0 → CompareWithSlash k max < 0 →
      (KeyRangeScan (committedKeys puts) min max).count k = 1) ∧
    (KeyRangeScan (committedKeys puts) min max).Pairwise
      (fun j k => CompareWithSlash j k < 0) ∧
    KeyRangeScan (committedKeys slashOrderTestKeys) (key "/a/b/a/") (key "/a/b/a//") =
      [key "/a/b/a/a", key "/a/b/a/b", key "/a/b/a/c"] := by
  obtain ⟨hmem, hsorted⟩ := committedKeys_foldl puts [] List.Pairwise.nil
  have hmem2 : ∀ k, k ∈ KeyRangeScan (committedKeys puts) min max ↔
      k ∈ puts ∧ CompareWithSlash min k ≤ 0 ∧ CompareWithSlash k max < 0 := by
    intro k
    simp only [KeyRangeScan, committedKeys, List.mem_filter, hmem, decide_eq_true_eq,
      List.not_mem_nil, or_false]
  have hpw : (KeyRangeScan (committedKeys puts) min max).Pairwise
      (fun j k => CompareWithSlash j k < 0) := List.Pairwise.filter _ hsorted
  have hnodup : (KeyRangeScan (committedKeys puts) min max).Nodup := by
    refine List.Pairwise.imp ?_ hpw
    intro a b hab heq
    rw [heq, CompareWithSlash_self] at hab
    exact lt_irrefl _ hab
  refine ⟨hmem2, ?_, hpw, by decide⟩
  intro k hk h1 h2
  have hone := List.count_eq_one_of_mem hnodup ((hmem2 k).2 ⟨hk, h1, h2⟩)
  rw [← hone]
  congr 1
  exact lawful_beq_subsingleton _ _

/-- C12 at the keys of the test: `/a/b/a/b` was written, lies in
`["/a/b/a/", "/a/b/a//")`, and is yielded exactly once. -/
theorem C12_key_range_scan_witness :
    (KeyRangeScan (committedKeys slashOrderTestKeys) (key "/a/b/a/") (key "/a/b/a//")).count
      (key "/a/b/a/b") = 1 :=
  (C12_key_range_scan slashOrderTestKeys (key "/a/b/a/") (key "/a/b/a//")).2.1
    (key "/a/b/a/b") (by decide) (by decide) (by decide)

end RangeScan

/-! ## Read-only lookups, idempotence and the closed flag -/

section DirectorBehaviour

variable {L F Resp : Type}

/-- C13. For every director state and shard id, whether the call succeeds or
fails, `GetLeader` and `GetFollower` leave the state (the leaders map, the
followers map and the `closed` flag) as it was and make no outside call: no
controller `Close`, no controller `DeleteShard`, no constructor. -/
theorem C13_lookups_read_only (s : shardsDirector L F) (shardId : Int) :
    (s.GetLeader shardId).state = s ∧ (s.GetLeader shardId).calls = [] ∧
    (s.GetFollower shardId).state = s ∧ (s.GetFollower shardId).calls = [] := by
  unfold shardsDirector.GetLeader shardsDirector.GetFollower
  cases s.closed
  · cases s.leaders.get shardId <;> cases s.followers.get shardId <;> simp
  · simp

theorem GetOrCreateLeader_hit (env : Env L F Resp) (s : shardsDirector L F) (ns : String)
    (shardId : Int) (leader : L) (hopen : s.closed = false)
    (hl : s.leaders.get shardId = some leader) :
    s.GetOrCreateLeader env ns shardId = ⟨s, (some leader, none), []⟩ := by
  simp [shardsDirector.GetOrCreateLeader, hopen, hl]

theorem GetOrCreateFollower_hit (env : Env L F Resp) (s : shardsDirector L F) (ns : String)
    (shardId : Int) (follower : F) (hopen : s.closed = false)
    (hf : s.followers.get shardId = some follower) :
    s.GetOrCreateFollower env ns shardId = ⟨s, (some follower, none), []⟩ := by
  simp [shardsDirector.GetOrCreateFollower, hopen, hf]

theorem GetOrCreateLeader_success (env : Env L F Resp) (s : shardsDirector L F) (ns : String)
    (shardId : Int) (hok : (s.GetOrCreateLeader env ns shardId).ret.2 = none) :
    ∃ lc, (s.GetOrCreateLeader env ns shardId).ret = (some lc, none) ∧
      (s.GetOrCreateLeader env ns shardId).state.closed = false ∧
      (s.GetOrCreateLeader env ns shardId).state.leaders.get shardId = some lc ∧
      ((s.GetOrCreateLeader env ns shardId).calls.filter
        (fun c => match c with
          | .NewLeaderController _ _ => true
          | _ => false)).length = (if s.leaders.contains shardId then 0 else 1) := by
  cases hc : s.closed with
  | true => simp [shardsDirector.GetOrCreateLeader, hc] at hok
  | false =>
    cases hl : s.leaders.get shardId with
    | some leader =>
      rw [GetOrCreateLeader_hit env s ns shardId leader hc hl]
      exact ⟨leader, rfl, hc, hl, by simp [GoMap.contains, hl]⟩
    | none =>
      cases hf : s.followers.get shardId with
      | none =>
        cases hctor : env.NewLeaderController ns shardId with
        | error err =>
          simp [shardsDirector.GetOrCreateLeader, shardsDirector.createLeader, hc, hl, hf,
            hctor] at hok
        | ok lc =>
          refine ⟨lc, ?_⟩
          simp [shardsDirector.GetOrCreateLeader, shardsDirector.createLeader, hc, hl, hf,
            hctor, GoMap.get_set_self, GoMap.contains]
      | some follower =>
        cases hcl : env.FollowerClose follower with
        | some err =>
          simp [shardsDirector.GetOrCreateLeader, hc, hl, hf, hcl] at hok
        | none =>
          cases hctor : env.NewLeaderController ns shardId with
          | error err =>
            simp [shardsDirector.GetOrCreateLeader, shardsDirector.createLeader, hc, hl, hf,
              hcl, hctor] at hok
          | ok lc =>
            refine ⟨lc, ?_⟩
            simp [shardsDirector.GetOrCreateLeader, shardsDirector.createLeader, hc, hl, hf,
              hcl, hctor, GoMap.get_set_self, GoMap.contains]

theorem GetOrCreateFollower_success (env : Env L F Resp) (s : shardsDirector L F)
    (ns : String) (shardId : Int)
    (hok : (s.GetOrCreateFollower env ns shardId).ret.2 = none) :
    ∃ fc, (s.GetOrCreateFollower env ns shardId).ret = (some fc, none) ∧
      (s.GetOrCreateFollower env ns shardId).state.closed = false ∧
      (s.GetOrCreateFollower env ns shardId).state.followers.get shardId = some fc ∧
      ((s.GetOrCreateFollower env ns shardId).calls.filter
        (fun c => match c with
          | .NewFollowerController _ _ => true
          | _ => false)).length = (if s.followers.contains shardId then 0 else 1) := by
  cases hc : s.closed with
  | true => simp [shardsDirector.GetOrCreateFollower, hc] at hok
  | false =>
    cases hf : s.followers.get shardId with
    | some follower =>
      rw [GetOrCreateFollower_hit env s ns shardId follower hc hf]
      exact ⟨follower, rfl, hc, hf, by simp [GoMap.contains, hf]⟩
    | none =>
      cases hl : s.leaders.get shardId with
      | none =>
        cases hctor : env.NewFollowerController ns shardId with
        | error err =>
          simp [shardsDirector.GetOrCreateFollower, shardsDirector.createFollower, hc, hl, hf,
            hctor] at hok
        | ok fc =>
          refine ⟨fc, ?_⟩
          simp [shardsDirector.GetOrCreateFollower, shardsDirector.createFollower, hc, hl, hf,
            hctor, GoMap.get_set_self, GoMap.contains]
      | some leader =>
        cases hcl : env.LeaderClose leader with
        | some err =>
          simp [shardsDirector.GetOrCreateFollower, hc, hl, hf, hcl] at hok
        | none =>
          cases hctor : env.NewFollowerController ns shardId with
          | error err =>
            simp [shardsDirector.GetOrCreateFollower, shardsDirector.createFollower, hc, hl,
              hf, hcl, hctor] at hok
          | ok fc =>
            refine ⟨fc, ?_⟩
            simp [shardsDirector.GetOrCreateFollower, shardsDirector.createFollower, hc, hl,
              hf, hcl, hctor, GoMap.get_set_self, GoMap.contains]

/-- C14. On an open director in which shard `shardId` is already registered as
a leader, `GetOrCreateLeader(ns, shardId)` returns that controller with no
error, makes no outside call (no constructor, no `Close`) and leaves the state
unchanged. Hence, when a `GetOrCreateLeader` call succeeds, a second call for
the same shard, whatever the environment does by then, returns the same
controller, makes no outside call and changes nothing, and over the two calls
the leader constructor runs once if the shard was not a leader before and not
at all if it was. Symmetrically for `GetOrCreateFollower`. -/
theorem C14_get_or_create_idempotent (env env2 : Env L F Resp) (s : shardsDirector L F)
    (ns : String) (shardId : Int) :
    (s.closed = false → ∀ leader, s.leaders.get shardId = some leader →
      s.GetOrCreateLeader env ns shardId = ⟨s, (some leader, none), []⟩) ∧
    (s.closed = false → ∀ follower, s.followers.get shardId = some follower →
      s.GetOrCreateFollower env ns shardId = ⟨s, (some follower, none), []⟩) ∧
    ((s.GetOrCreateLeader env ns shardId).ret.2 = none →
      ∃ lc, (s.GetOrCreateLeader env ns shardId).ret = (some lc, none) ∧
        (s.GetOrCreateLeader env ns shardId).state.GetOrCreateLeader env2 ns shardId =
          ⟨(s.GetOrCreateLeader env ns shardId).state, (some lc, none), []⟩ ∧
        (((s.GetOrCreateLeader env ns shardId).calls ++
          ((s.GetOrCreateLeader env ns shardId).state.GetOrCreateLeader env2 ns
            shardId).calls).filter
          (fun c => match c with
            | .NewLeaderController _ _ => true
            | _ => false)).length = (if s.leaders.contains shardId then 0 else 1)) ∧
    ((s.GetOrCreateFollower env ns shardId).ret.2 = none →
      ∃ fc, (s.GetOrCreateFollower env ns shardId).ret = (some fc, none) ∧
        (s.GetOrCreateFollower env ns shardId).state.GetOrCreateFollower env2 ns shardId =
          ⟨(s.GetOrCreateFollower env ns shardId).state, (some fc, none), []⟩ ∧
        (((s.GetOrCreateFollower env ns shardId).calls ++
          ((s.GetOrCreateFollower env ns shardId).state.GetOrCreateFollower env2 ns
            shardId).calls).filter
          (fun c => match c with
            | .NewFollowerController _ _ => true
            | _ => false)).length = (if s.followers.contains shardId then 0 else 1)) := by
  refine ⟨fun hopen leader hl => GetOrCreateLeader_hit env s ns shardId leader hopen hl,
    fun hopen follower hf => GetOrCreateFollower_hit env s ns shardId follower hopen hf,
    fun hok => ?_, fun hok => ?_⟩
  · obtain ⟨lc, hret, hopen, hget, hcount⟩ := GetOrCreateLeader_success env s ns shardId hok
    have h2 := GetOrCreateLeader_hit env2 _ ns shardId lc hopen hget
    refine ⟨lc, hret, h2, ?_⟩
    rw [h2, List.append_nil]
    exact hcount
  · obtain ⟨fc, hret, hopen, hget, hcount⟩ := GetOrCreateFollower_success env s ns shardId hok
    have h2 := GetOrCreateFollower_hit env2 _ ns shardId fc hopen hget
    refine ⟨fc, hret, h2, ?_⟩
    rw [h2, List.append_nil]
    exact hcount

/-- C14 at concrete inputs: on the director that leads shard 1 with controller
101, `GetOrCreateLeader("ns", 1)` returns 101 and does nothing else, even in an
environment where every outside call would fail; and after a first successful
`GetOrCreateLeader("ns", 1)` on a new director, the second call changes
nothing. -/
theorem C14_get_or_create_idempotent_witness :
    directorWithLeader.GetOrCreateLeader (envFail 9) "ns" 1 =
      ⟨directorWithLeader, (some 101, none), []⟩ ∧
    directorWithFollower.GetOrCreateFollower (envFail 9) "ns" 1 =
      ⟨directorWithFollower, (some 201, none), []⟩ ∧
    (∃ lc, ((NewShardsDirector : shardsDirector Nat Nat).GetOrCreateLeader envOk "ns" 1).ret =
        (some lc, none) ∧
      shardsDirector.GetOrCreateLeader (envFail 9)
          ((NewShardsDirector : shardsDirector Nat Nat).GetOrCreateLeader envOk "ns" 1).state
          "ns" 1 =
        ⟨((NewShardsDirector : shardsDirector Nat Nat).GetOrCreateLeader envOk "ns" 1).state,
          (some lc, none), []⟩) :=
  ⟨(C14_get_or_create_idempotent (envFail 9) envOk directorWithLeader "ns" 1).1
      (by decide) 101 (by decide),
   (C14_get_or_create_idempotent (envFail 9) envOk directorWithFollower "ns" 1).2.1
      (by decide) 201 (by decide),
   by
    obtain ⟨lc, h1, h2, _⟩ := (C14_get_or_create_idempotent envOk (envFail 9)
      (NewShardsDirector : shardsDirector Nat Nat) "ns" 1).2.2.1 (by decide)
    exact ⟨lc, h1, h2⟩⟩

theorem closed_step (env : Env L F Resp) (s : shardsDirector L F) (op : Op)
    (h : s.closed = true) : (s.step env op).closed = true := by
  cases op with
  | GetLeader shardId => simp [shardsDirector.step, shardsDirector.GetLeader, h]
  | GetFollower shardId => simp [shardsDirector.step, shardsDirector.GetFollower, h]
  | GetOrCreateLeader ns shardId =>
    simp [shardsDirector.step, shardsDirector.GetOrCreateLeader, h]
  | GetOrCreateFollower ns shardId =>
    simp [shardsDirector.step, shardsDirector.GetOrCreateFollower, h]
  | DeleteShard req =>
    simp only [shardsDirector.step, shardsDirector.DeleteShard]
    split
    · split <;> exact h
    · split
      · split <;> exact h
      · split <;> exact h
  | Close => rfl

theorem closed_run (s : shardsDirector L F) (steps : List (Env L F Resp × Op))
    (h : s.closed = true) : (s.run steps).closed = true := by
  induction steps generalizing s with
  | nil => exact h
  | cons st rest ih =>
    obtain ⟨env, op⟩ := st
    exact ih _ (closed_step env s op h)

/-- C17. Once `Close` has been called on a director, whatever sequence of
further calls follows (each answered by an arbitrary environment), the
`closed` flag is still set, and a `GetOrCreateLeader` or `GetOrCreateFollower`
call made then returns `ErrorAlreadyClosed`, makes no outside call (no
constructor, no controller `Close`) and leaves the state, both maps included,
unchanged. -/
theorem C17_closed_is_permanent (env0 env : Env L F Resp) (s : shardsDirector L F)
    (steps : List (Env L F Resp × Op)) (ns : String) (shardId : Int) :
    ((s.Close env0).state.run steps).closed = true ∧
    ((s.Close env0).state.run steps).GetOrCreateLeader env ns shardId =
      ⟨(s.Close env0).state.run steps, (none, some (.single .ErrorAlreadyClosed)), []⟩ ∧
    ((s.Close env0).state.run steps).GetOrCreateFollower env ns shardId =
      ⟨(s.Close env0).state.run steps, (none, some (.single .ErrorAlreadyClosed)), []⟩ := by
  have h : ((s.Close env0).state.run steps).closed = true := closed_run _ steps rfl
  refine ⟨h, ?_, ?_⟩
  · simp [shardsDirector.GetOrCreateLeader, h]
  · simp [shardsDirector.GetOrCreateFollower, h]

end DirectorBehaviour

/-! ## Failure atomicity of `DeleteShard` and the frame of the mutating calls -/

section DirectorFrame

variable {L F Resp : Type}

theorem DeleteShard_transient (env : Env L F Resp) (s : shardsDirector L F)
    (req : DeleteShardRequest) (fc : F) (hl : s.leaders.get req.ShardId = none)
    (hf : s.followers.get req.ShardId = none)
    (hctor : env.NewFollowerController req.Namespace req.ShardId = .ok fc) :
    s.DeleteShard env req =
      ⟨s, env.FollowerDeleteShard fc req,
        [Call.NewFollowerController req.Namespace req.ShardId,
         Call.FollowerDeleteShard fc req]⟩ := by
  simp [shardsDirector.DeleteShard, hl, hf, hctor]

/-- C18. `DeleteShard` is atomic on failure. For every director state and
request `req`: if the `DeleteShard` call on the registered leader (or, when no
leader is registered, on the registered follower) returns an error `e`, or if
no controller is registered and the constructor of the transient follower
fails with `e`, or that constructor succeeds and the `DeleteShard` of the
transient follower fails with `e` (returning, as a failing Go call does, no
response next to the error), then `DeleteShard(req)` returns `(nil, e)` and
the state is unchanged: the leaders map, the followers map and the `closed`
flag are as before, so a registered controller stays registered. The outside
calls are the ones named, and no other. -/
theorem C18_delete_shard_failure_atomic (env : Env L F Resp) (s : shardsDirector L F)
    (req : DeleteShardRequest) (e : GoError) :
    (∀ leader, s.leaders.get req.ShardId = some leader →
      (env.LeaderDeleteShard leader req).2 = some e →
      s.DeleteShard env req = ⟨s, (none, some e), [Call.LeaderDeleteShard leader req]⟩) ∧
    (s.leaders.get req.ShardId = none →
      ∀ follower, s.followers.get req.ShardId = some follower →
        (env.FollowerDeleteShard follower req).2 = some e →
        s.DeleteShard env req =
          ⟨s, (none, some e), [Call.FollowerDeleteShard follower req]⟩) ∧
    (s.leaders.get req.ShardId = none → s.followers.get req.ShardId = none →
      env.NewFollowerController req.Namespace req.ShardId = .error e →
      s.DeleteShard env req =
        ⟨s, (none, some e), [Call.NewFollowerController req.Namespace req.ShardId]⟩) ∧
    (s.leaders.get req.ShardId = none → s.followers.get req.ShardId = none →
      ∀ fc, env.NewFollowerController req.Namespace req.ShardId = .ok fc →
        env.FollowerDeleteShard fc req = (none, some e) →
        s.DeleteShard env req =
          ⟨s, (none, some e),
            [Call.NewFollowerController req.Namespace req.ShardId,
             Call.FollowerDeleteShard fc req]⟩) := by
  refine ⟨fun leader hl he => ?_, fun hl follower hf he => ?_, fun hl hf hctor => ?_,
    fun hl hf fc hctor he => ?_⟩
  · rcases hd : env.LeaderDeleteShard leader req with ⟨resp, err⟩
    rw [hd] at he
    simp only at he
    subst he
    simp [shardsDirector.DeleteShard, hl, hd]
  · rcases hd : env.FollowerDeleteShard follower req with ⟨resp, err⟩
    rw [hd] at he
    simp only at he
    subst he
    simp [shardsDirector.DeleteShard, hl, hf, hd]
  · simp [shardsDirector.DeleteShard, hl, hf, hctor]
  · rw [DeleteShard_transient env s req fc hl hf hctor, he]

/-- C18 at concrete inputs, on the director that leads shard 1 (controller 101)
and follows shard 2 (controller 202). With every outside call failing with
error 9, deleting the led shard 1, the followed shard 2 and the unknown shard 7
each return `(nil, error 9)` and change nothing; with a constructor that
succeeds and controllers whose `DeleteShard` fails with error 3, deleting the
unknown shard 7 builds the follower 207, asks it, returns `(nil, error 3)` and
changes nothing. -/
theorem C18_delete_shard_failure_atomic_witness :
    directorTwoShards.DeleteShard (envFail 9) ⟨"ns", 1⟩ =
      ⟨directorTwoShards, (none, some (.single (.other 9))),
        [Call.LeaderDeleteShard 101 ⟨"ns", 1⟩]⟩ ∧
    directorTwoShards.DeleteShard (envFail 9) ⟨"ns", 2⟩ =
      ⟨directorTwoShards, (none, some (.single (.other 9))),
        [Call.FollowerDeleteShard 202 ⟨"ns", 2⟩]⟩ ∧
    directorTwoShards.DeleteShard (envFail 9) ⟨"ns", 7⟩ =
      ⟨directorTwoShards, (none, some (.single (.other 9))),
        [Call.NewFollowerController "ns" 7]⟩ ∧
    directorTwoShards.DeleteShard (envDeleteFails 3) ⟨"ns", 7⟩ =
      ⟨directorTwoShards, (none, some (.single (.other 3))),
        [Call.NewFollowerController "ns" 7, Call.FollowerDeleteShard 207 ⟨"ns", 7⟩]⟩ :=
  ⟨(C18_delete_shard_failure_atomic (envFail 9) directorTwoShards ⟨"ns", 1⟩
      (.single (.other 9))).1 101 (by decide) (by decide),
   (C18_delete_shard_failure_atomic (envFail 9) directorTwoShards ⟨"ns", 2⟩
      (.single (.other 9))).2.1 (by decide) 202 (by decide) (by decide),
   (C18_delete_shard_failure_atomic (envFail 9) directorTwoShards ⟨"ns", 7⟩
      (.single (.other 9))).2.2.1 (by decide) (by decide) rfl,
   (C18_delete_shard_failure_atomic (envDeleteFails 3) directorTwoShards ⟨"ns", 7⟩
      (.single (.other 3))).2.2.2 (by decide) (by decide) 207 rfl (by decide)⟩

theorem GetOrCreateLeader_frame (env : Env L F Resp) (s : shardsDirector L F) (ns : String)
    (shardId t : Int) (hne : shardId ≠ t) :
    (s.GetOrCreateLeader env ns shardId).state.leaders.get t = s.leaders.get t ∧
    (s.GetOrCreateLeader env ns shardId).state.followers.get t = s.followers.get t ∧
    ∀ c ∈ (s.GetOrCreateLeader env ns shardId).calls,
      (∀ l, ¬ c.isOnLeader l) ∧
      (∀ f, c.isOnFollower f → s.followers.get shardId = some f) := by
  have hne2 : t ≠ shardId := fun h => hne h.symm
  unfold shardsDirector.GetOrCreateLeader shardsDirector.createLeader
  cases hc : s.closed
  · cases hl : s.leaders.get shardId
    · cases hf : s.followers.get shardId
      · cases hctor : env.NewLeaderController ns shardId <;>
          simp [GoMap.get_set_ne _ _ hne2, Call.isOnLeader, Call.isOnFollower]
      · rename_i follower
        cases hcl : env.FollowerClose follower
        · cases hctor : env.NewLeaderController ns shardId <;>
            simp [hcl, GoMap.get_set_ne _ _ hne2, GoMap.get_delete_ne _ hne2, Call.isOnLeader,
              Call.isOnFollower]
        · simp [hcl, Call.isOnLeader, Call.isOnFollower]
    · simp
  · simp

theorem GetOrCreateFollower_frame (env : Env L F Resp) (s : shardsDirector L F)
    (ns : String) (shardId t : Int) (hne : shardId ≠ t) :
    (s.GetOrCreateFollower env ns shardId).state.leaders.get t = s.leaders.get t ∧
    (s.GetOrCreateFollower env ns shardId).state.followers.get t = s.followers.get t ∧
    ∀ c ∈ (s.GetOrCreateFollower env ns shardId).calls,
      (∀ l, c.isOnLeader l → s.leaders.get shardId = some l) ∧
      (∀ f, ¬ c.isOnFollower f) := by
  have hne2 : t ≠ shardId := fun h => hne h.symm
  unfold shardsDirector.GetOrCreateFollower shardsDirector.createFollower
  cases hc : s.closed
  · cases hf : s.followers.get shardId
    · cases hl : s.leaders.get shardId
      · cases hctor : env.NewFollowerController ns shardId <;>
          simp [GoMap.get_set_ne _ _ hne2, Call.isOnLeader, Call.isOnFollower]
      · rename_i leader
        cases hcl : env.LeaderClose leader
        · cases hctor : env.NewFollowerController ns shardId <;>
            simp [hcl, GoMap.get_set_ne _ _ hne2, GoMap.get_delete_ne _ hne2, Call.isOnLeader,
              Call.isOnFollower]
        · simp [hcl, Call.isOnLeader, Call.isOnFollower]
    · simp
  · simp

theorem DeleteShard_frame (env : Env L F Resp) (s : shardsDirector L F)
    (req : DeleteShardRequest) (t : Int) (hne : req.ShardId ≠ t) :
    (s.DeleteShard env req).state.leaders.get t = s.leaders.get t ∧
    (s.DeleteShard env req).state.followers.get t = s.followers.get t ∧
    ∀ c ∈ (s.DeleteShard env req).calls,
      (∀ l, c.isOnLeader l → s.leaders.get req.ShardId = some l) ∧
      (∀ f, c.isOnFollower f → s.followers.get req.ShardId = some f ∨
        env.NewFollowerController req.Namespace req.ShardId = .ok f) := by
  have hne2 : t ≠ req.ShardId := fun h => hne h.symm
  unfold shardsDirector.DeleteShard
  cases hl : s.leaders.get req.ShardId
  · cases hf : s.followers.get req.ShardId
    · cases hctor : env.NewFollowerController req.Namespace req.ShardId <;>
        simp [hctor, Call.isOnLeader, Call.isOnFollower]
    · rename_i follower
      rcases hd : env.FollowerDeleteShard follower req with ⟨resp, _ | err⟩ <;>
        simp [hd, GoMap.get_delete_ne _ hne2, Call.isOnLeader, Call.isOnFollower]
  · rename_i leader
    rcases hd : env.LeaderDeleteShard leader req with ⟨resp, _ | err⟩ <;>
      simp [hd, GoMap.get_delete_ne _ hne2, Call.isOnLeader, Call.isOnFollower]

/-- C19. For every director state and shard ids `shardId ≠ t`, a call to
`GetOrCreateLeader`, `GetOrCreateFollower` or `DeleteShard` for `shardId`
leaves the entries of the leaders map and of the followers map for `t` exactly
as they were, and makes no `Close` and no `DeleteShard` call on the
controller of `t`. Controllers are objects with an identity: the controller of
`t` is taken to be another object than the one registered for `shardId` and,
for a follower, than the transient follower that `DeleteShard` may build. -/
theorem C19_other_shards_untouched (env : Env L F Resp) (s : shardsDirector L F)
    (ns : String) (shardId t : Int) (hne : shardId ≠ t) :
    ((s.GetOrCreateLeader env ns shardId).state.leaders.get t = s.leaders.get t ∧
      (s.GetOrCreateLeader env ns shardId).state.followers.get t = s.followers.get t ∧
      (s.GetOrCreateFollower env ns shardId).state.leaders.get t = s.leaders.get t ∧
      (s.GetOrCreateFollower env ns shardId).state.followers.get t = s.followers.get t ∧
      (s.DeleteShard env ⟨ns, shardId⟩).state.leaders.get t = s.leaders.get t ∧
      (s.DeleteShard env ⟨ns, shardId⟩).state.followers.get t = s.followers.get t) ∧
    (∀ lt, s.leaders.get t = some lt → s.leaders.get shardId ≠ some lt →
      ∀ c, (c ∈ (s.GetOrCreateLeader env ns shardId).calls ∨
            c ∈ (s.GetOrCreateFollower env ns shardId).calls ∨
            c ∈ (s.DeleteShard env ⟨ns, shardId⟩).calls) → ¬ c.isOnLeader lt) ∧
    (∀ ft, s.followers.get t = some ft → s.followers.get shardId ≠ some ft →
      env.NewFollowerController ns shardId ≠ .ok ft →
      ∀ c, (c ∈ (s.GetOrCreateLeader env ns shardId).calls ∨
            c ∈ (s.GetOrCreateFollower env ns shardId).calls ∨
            c ∈ (s.DeleteShard env ⟨ns, shardId⟩).calls) → ¬ c.isOnFollower ft) := by
  obtain ⟨a1, a2, a3⟩ := GetOrCreateLeader_frame env s ns shardId t hne
  obtain ⟨b1, b2, b3⟩ := GetOrCreateFollower_frame env s ns shardId t hne
  obtain ⟨c1, c2, c3⟩ := DeleteShard_frame env s ⟨ns, shardId⟩ t hne
  refine ⟨⟨a1, a2, b1, b2, c1, c2⟩, ?_, ?_⟩
  · intro lt _ hdiff c hc hon
    rcases hc with hc | hc | hc
    · exact (a3 c hc).1 lt hon
    · exact hdiff ((b3 c hc).1 lt hon)
    · exact hdiff ((c3 c hc).1 lt hon)
  · intro ft _ hdiff hfresh c hc hon
    rcases hc with hc | hc | hc
    · exact hdiff ((a3 c hc).2 ft hon)
    · exact (b3 c hc).2 ft hon
    · rcases (c3 c hc).2 ft hon with h | h
      · exact hdiff h
      · exact hfresh h

/-- C19 at concrete inputs: on the director that leads shard 1 (controller 101)
and follows shard 2 (controller 202), deleting shard 1 leaves the follower
entry of shard 2 in place and its only outside call, `DeleteShard` on the
leader 101, is not a call on the follower 202. -/
theorem C19_other_shards_untouched_witness :
    (directorTwoShards.DeleteShard envOk ⟨"ns", 1⟩).state.followers.get 2 =
      directorTwoShards.followers.get 2 ∧
    ¬ (Call.LeaderDeleteShard 101 ⟨"ns", 1⟩ : Call Nat Nat).isOnFollower 202 ∧
    ¬ (Call.FollowerClose 202 : Call Nat Nat).isOnLeader 101 :=
  ⟨(C19_other_shards_untouched envOk directorTwoShards "ns" 1 2 (by decide)).1.2.2.2.2.2,
   (C19_other_shards_untouched envOk directorTwoShards "ns" 1 2 (by decide)).2.2 202
      (by decide) (by decide) (by simp [envOk])
      (Call.LeaderDeleteShard 101 ⟨"ns", 1⟩) (Or.inr (Or.inr (by decide))),
   (C19_other_shards_untouched envOk directorTwoShards "ns" 2 1 (by decide)).2.1 101
      (by decide) (by decide) (Call.FollowerClose 202) (Or.inl (by decide))⟩

end DirectorFrame

/-! ## The manager after `Close` -/

section ManagerReuse

variable {B : Type}

theorem Manager_Close_state (close : B → Error) (m : Manager B) :
    (m.Close close).state = NewManager := by
  obtain ⟨h1, _, _⟩ := foldl_Manager_closeStep close m.batchers.entries (m.batchers, none, [])
  have hempty : (m.Close close).state.batchers.entries = [] := by
    simp only [Manager.Close]
    rw [h1, List.filter_eq_nil_iff]
    intro x hx
    simp only [decide_eq_true_eq, not_not]
    exact List.mem_map_of_mem Prod.fst hx
  cases hs : (m.Close close).state with
  | mk bs =>
    cases bs with
    | mk es =>
      rw [hs] at hempty
      simp only at hempty
      rw [hempty]
      rfl

/-- C20. The manager has no closed state. For every manager state, every
behaviour of the batchers and of the factory and every shard id: after
`Manager.Close` the map is empty, and a following `Manager.Get(id)` invokes
the factory (once, with that id), returns the batcher the factory built then
and stores it under the id; it neither fails nor returns a batcher that was in
the map before `Close`. -/
theorem C20_manager_usable_after_close (close : B → Error) (batcherFactory : Int → B)
    (m : Manager B) (shardId : Int) :
    (m.Close close).state.batchers.entries = [] ∧
    (m.Close close).state.Get batcherFactory shardId =
      ⟨⟨(GoMap.empty : GoMap B).set shardId (batcherFactory shardId)⟩,
        batcherFactory shardId, [shardId]⟩ ∧
    ((m.Close close).state.Get batcherFactory shardId).state.batchers.get shardId =
      some (batcherFactory shardId) ∧
    ((m.Close close).state.Get batcherFactory shardId).state.batchers.entries =
      [(shardId, batcherFactory shardId)] := by
  rw [Manager_Close_state]
  have hnone : (NewManager : Manager B).batchers.get shardId = none := by
    simp [NewManager, GoMap.empty, GoMap.get]
  rw [Manager_Get_miss batcherFactory NewManager shardId hnone]
  refine ⟨rfl, rfl, GoMap.get_set_self _ _ _, ?_⟩
  simp [NewManager, GoMap.set, GoMap.delete, GoMap.empty]

end ManagerReuse

/-! ## Conversion of calls to their wire form -/

section ConvertFacts

variable {CALL PROTO : Type}

theorem Convert_loop_length (toProto : CALL → PROTO) (calls : List CALL) (i : Nat)
    (protos : List PROTO) : (Convert.loop toProto i calls protos).length = protos.length := by
  induction calls generalizing i protos with
  | nil => rfl
  | cons call rest ih => simp [Convert.loop, ih]

theorem Convert_loop_getElem? (toProto : CALL → PROTO) (calls : List CALL) (i : Nat)
    (protos : List PROTO) (h : i + calls.length ≤ protos.length) (j : Nat) :
    (Convert.loop toProto i calls protos)[j]? =
      if i ≤ j ∧ j < i + calls.length then (calls[j - i]?).map toProto else protos[j]? := by
  induction calls generalizing i protos with
  | nil =>
    have hfalse : ¬ (i ≤ j ∧ j < i + ([] : List CALL).length) := by
      simp only [List.length_nil]; omega
    simp only [Convert.loop, hfalse, if_false]
  | cons call rest ih =>
    have hlen : i + 1 + rest.length ≤ (protos.set i (toProto call)).length := by
      simp only [List.length_set, List.length_cons] at h ⊢; omega
    simp only [Convert.loop, List.length_cons] at h ⊢
    rw [ih (i + 1) _ hlen]
    by_cases hji : j = i
    · subst hji
      have h1 : ¬ (j + 1 ≤ j ∧ j < j + 1 + rest.length) := by omega
      have h2 : j ≤ j ∧ j < j + (rest.length + 1) := by omega
      have h3 : j < protos.length := by omega
      simp [h1, h3, List.getElem?_set]
    · by_cases hin : i + 1 ≤ j ∧ j < i + 1 + rest.length
      · have h2 : i ≤ j ∧ j < i + (rest.length + 1) := by omega
        have h3 : j - i = (j - (i + 1)) + 1 := by omega
        simp only [hin, h2, and_self, if_true]
        rw [h3, List.getElem?_cons_succ]
      · have h2 : ¬ (i ≤ j ∧ j < i + (rest.length + 1)) := by omega
        have h3 : i ≠ j := fun h4 => hji h4.symm
        simp only [hin, h2, if_false, List.getElem?_set_ne h3]

theorem Convert_eq_map (zero : PROTO) (calls : List CALL) (toProto : CALL → PROTO) :
    Convert zero calls toProto = calls.map toProto := by
  apply List.ext_getElem?
  intro j
  unfold Convert
  rw [Convert_loop_getElem? toProto calls 0 _ (by simp)]
  by_cases hj : j < calls.length
  · have h1 : 0 ≤ j ∧ j < 0 + calls.length := by omega
    simp only [h1, and_self, if_true, Nat.sub_zero, List.getElem?_map]
  · have h1 : ¬ (0 ≤ j ∧ j < 0 + calls.length) := by omega
    have h2 : calls.length ≤ j := by omega
    simp only [h1, if_false, List.getElem?_map]
    rw [List.getElem?_eq_none (by simpa using h2), List.getElem?_eq_none h2]
    rfl

/-- C21. `Convert` is an order-preserving element-wise map. For every list
`calls` and every function `toProto`, `Convert(calls, toProto)` has the length
of `calls`, and for every index `i` its `i`-th element is `toProto(calls[i])`
(both are absent when `i` is not a valid index); the empty list maps to the
empty list. In particular `Convert` with `PutCall.ToProto` keeps the `Key`,
`Value`, `ExpectedVersionId`, `SessionId` and `ClientIdentity` of each call at
the position of the call. -/
theorem C21_convert_elementwise (zero : PROTO) (calls : List CALL) (toProto : CALL → PROTO) :
    (Convert zero calls toProto).length = calls.length ∧
    (∀ i : Nat, (Convert zero calls toProto)[i]? = (calls[i]?).map toProto) ∧
    Convert zero ([] : List CALL) toProto = [] ∧
    (∀ (Cb : Type) (puts : List (PutCall Cb)) (i : Nat),
      ((Convert PutRequest.zero puts PutCall.ToProto)[i]?).map
          (fun p => (p.Key, p.Value, p.ExpectedVersionId, p.SessionId, p.ClientIdentity)) =
        (puts[i]?).map
          (fun c => (c.Key, c.Value, c.ExpectedVersionId, c.SessionId, c.ClientIdentity))) := by
  refine ⟨?_, ?_, rfl, ?_⟩
  · rw [Convert_eq_map, List.length_map]
  · intro i
    rw [Convert_eq_map, List.getElem?_map]
  · intro Cb puts i
    rw [Convert_eq_map, List.getElem?_map]
    cases puts[i]? <;> rfl

/-- The conversion of the two example put calls: the requests come out in the
order of the calls, each with the fields of its call. -/
theorem Convert_examplePutCalls :
    Convert PutRequest.zero examplePutCalls PutCall.ToProto =
      [⟨"a", [48], none, none, none⟩, ⟨"b", [49], some 3, some 5, some "c1"⟩] := by
  decide

end ConvertFacts

end Oxia
